import Mathlib

/-!
Shallow embedding of the attribute decoder of the PyClass repository
(`PyClassJVM/attributes.py` together with the record classes of
`PyClassJVM/attribute_helpers.py`), and theorems checking the
natural-language specification against it.

Modelling decisions, all taken from the source:
- A byte cursor (`io.BytesIO` / the file-like `fp`) is modelled as the list
  of bytes still ahead of the read position.  `fp.read(n)` returns *up to*
  `n` bytes (`List.take`) and advances past them (`List.drop`); it does not
  fail on a short buffer.  `struct.unpack` raises `struct.error` when the
  byte string it receives is shorter than the format requires; that is the
  only place a short read turns into an error.
- `constant_pool[i - 1]` is Python list indexing on the unsigned value `i`:
  for `i = 0` the subscript is `-1`, which silently yields the *last* pool
  entry when the pool is non-empty and raises `IndexError` otherwise; for
  `i ≥ 1` it yields entry `i - 1` or raises `IndexError` when out of range.
  `poolGet` reproduces exactly this.
- Exceptions are modelled with `Except PErr`; `PErr.truncatedInput` stands
  for `struct.error` on a short read and `PErr.invalidSymbolIndex` for
  `IndexError` from pool indexing, matching the spec's error taxonomy.
- The recursion of `Attribute.parse` through `Attribute_Code._parse` is
  embedded with a structural fuel argument (`Attribute.parseF`); the depth
  of the recursion is bounded by the cursor length because every nested
  attribute consumes a 6-byte header of its parent's buffer before
  recursing, so fuel `c.length + 1` never runs out (`parseF_isSome` below).
-/

set_option maxRecDepth 8192

namespace PyClassJVM

/-- A constant-pool entry.  The decoder only ever reads the `value` field of
an entry (the resolved UTF-8 text used for dispatch); all other uses store
the entry as an opaque resolved symbol, so the entry is modelled by that
field alone. -/
structure CPEntry where
  value : String
  deriving DecidableEq, Repr

/-- The failures the decoder can raise: `truncatedInput` is `struct.error`
from unpacking a short read, `invalidSymbolIndex` is `IndexError` from
constant-pool subscripting. -/
inductive PErr where
  | truncatedInput
  | invalidSymbolIndex
  deriving DecidableEq, Repr

/-- The bytes still ahead of a cursor's read position. -/
abbrev Bytes := List Nat

/-- Big-endian decoding of two bytes (struct format `>H`). -/
def u16 (b0 b1 : Nat) : Nat := b0 * 256 + b1

/-- Big-endian decoding of four bytes (struct format `>I`). -/
def u32 (b0 b1 b2 b3 : Nat) : Nat := ((b0 * 256 + b1) * 256 + b2) * 256 + b3

/-- `struct.unpack(">H", fp.read(2))`: two bytes are consumed and decoded
big-endian; fewer than two bytes remaining raises `struct.error`. -/
def readU16 : Bytes → Except PErr (Nat × Bytes)
  | b0 :: b1 :: r => .ok (u16 b0 b1, r)
  | _ => .error .truncatedInput

/-- Python's `constant_pool[idx - 1]` for an unsigned `idx` read from the
input: `idx = 0` subscripts with `-1`, returning the last entry of a
non-empty pool (and `IndexError` on an empty one); otherwise entry
`idx - 1` is returned when it exists and `IndexError` is raised when it
does not. -/
def poolGet (pool : List CPEntry) (idx : Nat) : Except PErr CPEntry :=
  if idx = 0 then
    match pool.getLast? with
    | some e => .ok e
    | none => .error .invalidSymbolIndex
  else if h : idx - 1 < pool.length then .ok (pool.get ⟨idx - 1, h⟩)
  else .error .invalidSymbolIndex

/-- `LineNumber` of `attribute_helpers.py`. -/
structure LineNumber where
  start_pc : Nat
  line_number : Nat
  deriving DecidableEq, Repr

/-- `LocalVariable` of `attribute_helpers.py` (the source names the second
slot `line_number`). -/
structure LocalVariable where
  start_pc : Nat
  line_number : Nat
  name_index : Nat
  descriptor_index : Nat
  index : Nat
  deriving DecidableEq, Repr

/-- `LocalVariableType` of `attribute_helpers.py`. -/
structure LocalVariableType where
  start_pc : Nat
  line_number : Nat
  name_index : Nat
  signature_index : Nat
  index : Nat
  deriving DecidableEq, Repr

/-- Modelled from the spec: the access-flag decoder lives in
`PyClassJVM/flags.py`, which is outside the core under verification; the
spec treats it as a pure, total function from the raw 2-byte integer to a
flag set, so it is modelled as a wrapper around that integer. -/
structure InnerClassAccessFlags where
  flags : Nat
  deriving DecidableEq, Repr

/-- `InnerClass` of `attribute_helpers.py`. -/
structure InnerClass where
  inner_class_info : CPEntry
  outer_class_info : CPEntry
  inner_name : CPEntry
  inner_class_access_flags : InnerClassAccessFlags
  deriving DecidableEq, Repr

/-- The tagged union of attribute variants: one constructor per
`Attribute_*` subclass of `attributes.py`, plus `Unknown` for
`UnknownAttribute`.  Field names follow the Python attribute names. -/
inductive Attribute where
  | Unknown (name : CPEntry) (info : Bytes)
  | ConstantValue (name : CPEntry) (constant_value : CPEntry)
  | Code (name : CPEntry) (max_stack : Nat) (max_locals : Nat) (code : Bytes)
      (exception_table : List (Nat × Nat × Nat × Nat))
      (attributes : List Attribute)
  | Exceptions (name : CPEntry) (exception_index_table : List Nat)
  | InnerClasses (name : CPEntry) (inner_classes : List InnerClass)
  | EnclosingMethod (name : CPEntry) (class_ : CPEntry) (method : CPEntry)
  | Synthetic (name : CPEntry)
  | Signature (name : CPEntry) (signature : CPEntry)
  | SourceFile (name : CPEntry) (sourcefile : CPEntry)
  | SourceDebugExtension (name : CPEntry) (debug_extension : Bytes)
  | LineNumberTable (name : CPEntry) (line_number_table : List LineNumber)
  | LocalVariableTable (name : CPEntry) (local_variable_table : List LocalVariable)
  | LocalVariableTypeTable (name : CPEntry)
      (local_variable_type_table : List LocalVariableType)
  | Deprecated (name : CPEntry)
  | BootstrapMethods (name : CPEntry)
      (bootstrap_methods : List (CPEntry × List CPEntry))
  | ModulePackages (name : CPEntry) (package_index_table : List CPEntry)
  | ModuleMainClass (name : CPEntry) (main_class : CPEntry)
  | NestHost (name : CPEntry) (host_class : CPEntry)

/-- The `for _ in range(n): xs.append(readEntry(fp))` pattern shared by all
count-prefixed tables: read `n` entries in order, threading the cursor. -/
def readTable {α : Type} (f : Bytes → Except PErr (α × Bytes)) :
    Nat → Bytes → Except PErr (List α × Bytes)
  | 0, fp => .ok ([], fp)
  | n + 1, fp =>
    match f fp with
    | .error e => .error e
    | .ok (x, fp1) =>
      match readTable f n fp1 with
      | .error e => .error e
      | .ok (xs, fp2) => .ok (x :: xs, fp2)

/-- One exception-table entry of a Code attribute:
`struct.unpack(">HHHH", fp.read(8))`, stored raw. -/
def readExcEntry : Bytes → Except PErr ((Nat × Nat × Nat × Nat) × Bytes)
  | a0 :: a1 :: b0 :: b1 :: c0 :: c1 :: d0 :: d1 :: r =>
    .ok ((u16 a0 a1, u16 b0 b1, u16 c0 c1, u16 d0 d1), r)
  | _ => .error .truncatedInput

/-- One `InnerClasses` entry: four 2-byte indices, the first three resolved
through the pool (`constant_pool[i - 1]`), the fourth wrapped as flags. -/
def readInnerClassEntry (pool : List CPEntry) :
    Bytes → Except PErr (InnerClass × Bytes)
  | a0 :: a1 :: b0 :: b1 :: c0 :: c1 :: d0 :: d1 :: r =>
    match poolGet pool (u16 a0 a1) with
    | .error e => .error e
    | .ok ici =>
      match poolGet pool (u16 b0 b1) with
      | .error e => .error e
      | .ok oci =>
        match poolGet pool (u16 c0 c1) with
        | .error e => .error e
        | .ok inm => .ok (⟨ici, oci, inm, ⟨u16 d0 d1⟩⟩, r)
  | _ => .error .truncatedInput

/-- One `LineNumberTable` entry: `struct.unpack(">HH", fp.read(4))`. -/
def readLineNumberEntry : Bytes → Except PErr (LineNumber × Bytes)
  | a0 :: a1 :: b0 :: b1 :: r => .ok (⟨u16 a0 a1, u16 b0 b1⟩, r)
  | _ => .error .truncatedInput

/-- One `LocalVariableTable` entry: `struct.unpack(">HHHHH", fp.read(10))`,
stored raw. -/
def readLocalVariableEntry : Bytes → Except PErr (LocalVariable × Bytes)
  | a0 :: a1 :: b0 :: b1 :: c0 :: c1 :: d0 :: d1 :: e0 :: e1 :: r =>
    .ok (⟨u16 a0 a1, u16 b0 b1, u16 c0 c1, u16 d0 d1, u16 e0 e1⟩, r)
  | _ => .error .truncatedInput

/-- One `LocalVariableTypeTable` entry, same layout. -/
def readLocalVariableTypeEntry : Bytes → Except PErr (LocalVariableType × Bytes)
  | a0 :: a1 :: b0 :: b1 :: c0 :: c1 :: d0 :: d1 :: e0 :: e1 :: r =>
    .ok (⟨u16 a0 a1, u16 b0 b1, u16 c0 c1, u16 d0 d1, u16 e0 e1⟩, r)
  | _ => .error .truncatedInput

/-- A 2-byte index immediately resolved through the pool, as in the
`BootstrapMethods` argument loop and `ModulePackages`. -/
def readPoolIndexEntry (pool : List CPEntry) :
    Bytes → Except PErr (CPEntry × Bytes)
  | x0 :: x1 :: r =>
    match poolGet pool (u16 x0 x1) with
    | .error e => .error e
    | .ok s => .ok (s, r)
  | _ => .error .truncatedInput

/-- One `BootstrapMethods` entry: a method-handle index and an argument
count, then the arguments resolved in order; the method-handle index is
resolved last, exactly as in the source (line 263). -/
def readBootstrapMethodEntry (pool : List CPEntry) :
    Bytes → Except PErr ((CPEntry × List CPEntry) × Bytes)
  | a0 :: a1 :: b0 :: b1 :: r =>
    match readTable (readPoolIndexEntry pool) (u16 b0 b1) r with
    | .error e => .error e
    | .ok (args, r2) =>
      match poolGet pool (u16 a0 a1) with
      | .error e => .error e
      | .ok m => .ok ((m, args), r2)
  | _ => .error .truncatedInput

/-- `Attribute_ConstantValue._parse`. -/
def parseConstantValue (name : CPEntry) (fp : Bytes) (pool : List CPEntry) :
    Except PErr Attribute :=
  match readU16 fp with
  | .error e => .error e
  | .ok (idx, _) =>
    match poolGet pool idx with
    | .error e => .error e
    | .ok cv => .ok (.ConstantValue name cv)

/-- `Attribute_Exceptions._parse`: the indices are stored raw. -/
def parseExceptions (name : CPEntry) (fp : Bytes) (_pool : List CPEntry) :
    Except PErr Attribute :=
  match readU16 fp with
  | .error e => .error e
  | .ok (n, fp1) =>
    match readTable (fun c => readU16 c) n fp1 with
    | .error e => .error e
    | .ok (l, _) => .ok (.Exceptions name l)

/-- `Attribute_InnerClasses._parse`. -/
def parseInnerClasses (name : CPEntry) (fp : Bytes) (pool : List CPEntry) :
    Except PErr Attribute :=
  match readU16 fp with
  | .error e => .error e
  | .ok (n, fp1) =>
    match readTable (readInnerClassEntry pool) n fp1 with
    | .error e => .error e
    | .ok (l, _) => .ok (.InnerClasses name l)

/-- `Attribute_EnclosingMethod._parse`. -/
def parseEnclosingMethod (name : CPEntry) (fp : Bytes) (pool : List CPEntry) :
    Except PErr Attribute :=
  match fp with
  | a0 :: a1 :: b0 :: b1 :: _ =>
    match poolGet pool (u16 a0 a1) with
    | .error e => .error e
    | .ok c =>
      match poolGet pool (u16 b0 b1) with
      | .error e => .error e
      | .ok m => .ok (.EnclosingMethod name c m)
  | _ => .error .truncatedInput

/-- `Attribute_Synthetic._parse`: ignores its cursor entirely. -/
def parseSynthetic (name : CPEntry) (_fp : Bytes) (_pool : List CPEntry) :
    Except PErr Attribute :=
  .ok (.Synthetic name)

/-- `Attribute_Signature._parse`. -/
def parseSignature (name : CPEntry) (fp : Bytes) (pool : List CPEntry) :
    Except PErr Attribute :=
  match readU16 fp with
  | .error e => .error e
  | .ok (idx, _) =>
    match poolGet pool idx with
    | .error e => .error e
    | .ok s => .ok (.Signature name s)

/-- `Attribute_SourceFile._parse`. -/
def parseSourceFile (name : CPEntry) (fp : Bytes) (pool : List CPEntry) :
    Except PErr Attribute :=
  match readU16 fp with
  | .error e => .error e
  | .ok (idx, _) =>
    match poolGet pool idx with
    | .error e => .error e
    | .ok s => .ok (.SourceFile name s)

/-- `Attribute_SourceDebugExtension._parse`: `fp.read()` takes every
remaining byte. -/
def parseSourceDebugExtension (name : CPEntry) (fp : Bytes)
    (_pool : List CPEntry) : Except PErr Attribute :=
  .ok (.SourceDebugExtension name fp)

/-- `Attribute_LineNumberTable._parse`. -/
def parseLineNumberTable (name : CPEntry) (fp : Bytes) (_pool : List CPEntry) :
    Except PErr Attribute :=
  match readU16 fp with
  | .error e => .error e
  | .ok (n, fp1) =>
    match readTable readLineNumberEntry n fp1 with
    | .error e => .error e
    | .ok (l, _) => .ok (.LineNumberTable name l)

/-- `Attribute_LocalVariableTable._parse`. -/
def parseLocalVariableTable (name : CPEntry) (fp : Bytes)
    (_pool : List CPEntry) : Except PErr Attribute :=
  match readU16 fp with
  | .error e => .error e
  | .ok (n, fp1) =>
    match readTable readLocalVariableEntry n fp1 with
    | .error e => .error e
    | .ok (l, _) => .ok (.LocalVariableTable name l)

/-- `Attribute_LocalVariableTypeTable._parse`. -/
def parseLocalVariableTypeTable (name : CPEntry) (fp : Bytes)
    (_pool : List CPEntry) : Except PErr Attribute :=
  match readU16 fp with
  | .error e => .error e
  | .ok (n, fp1) =>
    match readTable readLocalVariableTypeEntry n fp1 with
    | .error e => .error e
    | .ok (l, _) => .ok (.LocalVariableTypeTable name l)

/-- `Attribute_Deprecated._parse`: ignores its cursor entirely. -/
def parseDeprecated (name : CPEntry) (_fp : Bytes) (_pool : List CPEntry) :
    Except PErr Attribute :=
  .ok (.Deprecated name)

/-- `Attribute_BootstrapMethods._parse`. -/
def parseBootstrapMethods (name : CPEntry) (fp : Bytes) (pool : List CPEntry) :
    Except PErr Attribute :=
  match readU16 fp with
  | .error e => .error e
  | .ok (n, fp1) =>
    match readTable (readBootstrapMethodEntry pool) n fp1 with
    | .error e => .error e
    | .ok (l, _) => .ok (.BootstrapMethods name l)

/-- `Attribute_ModulePackages._parse`. -/
def parseModulePackages (name : CPEntry) (fp : Bytes) (pool : List CPEntry) :
    Except PErr Attribute :=
  match readU16 fp with
  | .error e => .error e
  | .ok (n, fp1) =>
    match readTable (readPoolIndexEntry pool) n fp1 with
    | .error e => .error e
    | .ok (l, _) => .ok (.ModulePackages name l)

/-- `Attribute_ModuleMainClass._parse`. -/
def parseModuleMainClass (name : CPEntry) (fp : Bytes) (pool : List CPEntry) :
    Except PErr Attribute :=
  match readU16 fp with
  | .error e => .error e
  | .ok (idx, _) =>
    match poolGet pool idx with
    | .error e => .error e
    | .ok s => .ok (.ModuleMainClass name s)

/-- `Attribute_NestHost._parse`. -/
def parseNestHost (name : CPEntry) (fp : Bytes) (pool : List CPEntry) :
    Except PErr Attribute :=
  match readU16 fp with
  | .error e => .error e
  | .ok (idx, _) =>
    match poolGet pool idx with
    | .error e => .error e
    | .ok s => .ok (.NestHost name s)

/-- The `for _ in range(attributes_count): attributes.append(Attribute.parse(fp, ...))`
loop of `Attribute_Code._parse`, abstracted over the recursive call `step`
(which is instantiated with the fuelled `Attribute.parseF`). -/
def attrLoop (step : Bytes → Option (Except PErr (Attribute × Bytes))) :
    Nat → Bytes → Option (Except PErr (List Attribute × Bytes))
  | 0, fp => some (.ok ([], fp))
  | k + 1, fp =>
    match step fp with
    | none => none
    | some (.error e) => some (.error e)
    | some (.ok (a, fp1)) =>
      match attrLoop step k fp1 with
      | none => none
      | some (.error e) => some (.error e)
      | some (.ok (l, fp2)) => some (.ok (a :: l, fp2))

/-- `Attribute_Code._parse`: two 2-byte counts and a 4-byte code length
unpacked from one 8-byte read, the raw bytecode (`fp.read(code_length)`,
which silently returns short), the count-prefixed exception table, then the
count-prefixed recursive attribute list on the same cursor with the same
pool (via `rec`). -/
def Attribute_Code_parse
    (rec : Bytes → Option (Except PErr (Attribute × Bytes)))
    (name : CPEntry) (fp : Bytes) (_pool : List CPEntry) :
    Option (Except PErr Attribute) :=
  match fp with
  | a0 :: a1 :: b0 :: b1 :: c0 :: c1 :: c2 :: c3 :: r8 =>
    match readU16 (r8.drop (u32 c0 c1 c2 c3)) with
    | .error e => some (.error e)
    | .ok (n, r2) =>
      match readTable readExcEntry n r2 with
      | .error e => some (.error e)
      | .ok (et, r3) =>
        match readU16 r3 with
        | .error e => some (.error e)
        | .ok (k, r4) =>
          match attrLoop rec k r4 with
          | none => none
          | some (.error e) => some (.error e)
          | some (.ok (l, _)) =>
            some (.ok (.Code name (u16 a0 a1) (u16 b0 b1)
              (r8.take (u32 c0 c1 c2 c3)) et l))
  | _ => some (.error .truncatedInput)

/-- The dispatch loop of `Attribute.parse`: the resolved name is compared
against the `Attribute_*` subclass names in definition order; no match
falls through to `UnknownAttribute`, which keeps the raw body. -/
def dispatchAttr (rec : Bytes → Option (Except PErr (Attribute × Bytes)))
    (name : CPEntry) (info : Bytes) (pool : List CPEntry) :
    Option (Except PErr Attribute) :=
  if name.value = "ConstantValue" then some (parseConstantValue name info pool)
  else if name.value = "Code" then Attribute_Code_parse rec name info pool
  else if name.value = "Exceptions" then some (parseExceptions name info pool)
  else if name.value = "InnerClasses" then some (parseInnerClasses name info pool)
  else if name.value = "EnclosingMethod" then some (parseEnclosingMethod name info pool)
  else if name.value = "Synthetic" then some (parseSynthetic name info pool)
  else if name.value = "Signature" then some (parseSignature name info pool)
  else if name.value = "SourceFile" then some (parseSourceFile name info pool)
  else if name.value = "SourceDebugExtension" then
    some (parseSourceDebugExtension name info pool)
  else if name.value = "LineNumberTable" then some (parseLineNumberTable name info pool)
  else if name.value = "LocalVariableTable" then
    some (parseLocalVariableTable name info pool)
  else if name.value = "LocalVariableTypeTable" then
    some (parseLocalVariableTypeTable name info pool)
  else if name.value = "Deprecated" then some (parseDeprecated name info pool)
  else if name.value = "BootstrapMethods" then
    some (parseBootstrapMethods name info pool)
  else if name.value = "ModulePackages" then some (parseModulePackages name info pool)
  else if name.value = "ModuleMainClass" then some (parseModuleMainClass name info pool)
  else if name.value = "NestHost" then some (parseNestHost name info pool)
  else some (.ok (.Unknown name info))

/-- `Attribute.parse` with structural fuel: read the 6-byte header
(`struct.unpack(">HI", fp.read(6))`), resolve the name through the pool,
slice the declared body out of the cursor (`fp.read(attribute_length)`,
which silently returns short), and dispatch.  `none` means the fuel ran
out, which never happens at fuel `c.length + 1` (`parseF_isSome`). -/
def Attribute.parseF : Nat → Bytes → List CPEntry →
    Option (Except PErr (Attribute × Bytes))
  | 0, _, _ => none
  | f + 1, c, pool =>
    match c with
    | b0 :: b1 :: b2 :: b3 :: b4 :: b5 :: rest =>
      match poolGet pool (u16 b0 b1) with
      | .error e => some (.error e)
      | .ok name =>
        match dispatchAttr (fun fp => Attribute.parseF f fp pool) name
            (rest.take (u32 b2 b3 b4 b5)) pool with
        | none => none
        | some (.error e) => some (.error e)
        | some (.ok a) => some (.ok (a, rest.drop (u32 b2 b3 b4 b5)))
    | _ => some (.error .truncatedInput)

/-- `Attribute.parse(fp, constant_pool)`: the fuelled decoder at a fuel the
recursion can never exhaust. -/
def Attribute.parse (c : Bytes) (pool : List CPEntry) :
    Except PErr (Attribute × Bytes) :=
  (Attribute.parseF (c.length + 1) c pool).getD (.error .truncatedInput)

/-- The recursive-call closure `Attribute.parseF` passes to the dispatch,
named so theorems can speak about it. -/
def parseRec (f : Nat) (pool : List CPEntry) :
    Bytes → Option (Except PErr (Attribute × Bytes)) :=
  fun fp => Attribute.parseF f fp pool

/-- The attribute names with a dedicated `Attribute_*` decoder class, in
the source's definition order. -/
def recognizedNames : List String :=
  ["ConstantValue", "Code", "Exceptions", "InnerClasses", "EnclosingMethod",
   "Synthetic", "Signature", "SourceFile", "SourceDebugExtension",
   "LineNumberTable", "LocalVariableTable", "LocalVariableTypeTable",
   "Deprecated", "BootstrapMethods", "ModulePackages", "ModuleMainClass",
   "NestHost"]

/-- The `name` field every variant carries. -/
def Attribute.attrName : Attribute → CPEntry
  | .Unknown n _ => n
  | .ConstantValue n _ => n
  | .Code n _ _ _ _ _ => n
  | .Exceptions n _ => n
  | .InnerClasses n _ => n
  | .EnclosingMethod n _ _ => n
  | .Synthetic n => n
  | .Signature n _ => n
  | .SourceFile n _ => n
  | .SourceDebugExtension n _ => n
  | .LineNumberTable n _ => n
  | .LocalVariableTable n _ => n
  | .LocalVariableTypeTable n _ => n
  | .Deprecated n => n
  | .BootstrapMethods n _ => n
  | .ModulePackages n _ => n
  | .ModuleMainClass n _ => n
  | .NestHost n _ => n

/-- The dispatch name a variant answers to, `none` for the fallback. -/
def Attribute.variantName : Attribute → Option String
  | .Unknown _ _ => none
  | .ConstantValue _ _ => some "ConstantValue"
  | .Code _ _ _ _ _ _ => some "Code"
  | .Exceptions _ _ => some "Exceptions"
  | .InnerClasses _ _ => some "InnerClasses"
  | .EnclosingMethod _ _ _ => some "EnclosingMethod"
  | .Synthetic _ => some "Synthetic"
  | .Signature _ _ => some "Signature"
  | .SourceFile _ _ => some "SourceFile"
  | .SourceDebugExtension _ _ => some "SourceDebugExtension"
  | .LineNumberTable _ _ => some "LineNumberTable"
  | .LocalVariableTable _ _ => some "LocalVariableTable"
  | .LocalVariableTypeTable _ _ => some "LocalVariableTypeTable"
  | .Deprecated _ => some "Deprecated"
  | .BootstrapMethods _ _ => some "BootstrapMethods"
  | .ModulePackages _ _ => some "ModulePackages"
  | .ModuleMainClass _ _ => some "ModuleMainClass"
  | .NestHost _ _ => some "NestHost"

/-! ### Encoders for well-formed bodies

Reference encoders used to quantify over well-formed input bodies in the
round-trip theorems; they are the inverse byte layouts of the readers
above. -/

/-- Big-endian 2-byte encoding. -/
def u16bytes (v : Nat) : Bytes := [v / 256, v % 256]

/-- Big-endian 4-byte encoding. -/
def u32bytes (v : Nat) : Bytes :=
  [v / 16777216, v / 65536 % 256, v / 256 % 256, v % 256]

/-- Four consecutive 2-byte fields (exception-table and InnerClasses
entries). -/
def quadBytes (t : Nat × Nat × Nat × Nat) : Bytes :=
  u16bytes t.1 ++ u16bytes t.2.1 ++ u16bytes t.2.2.1 ++ u16bytes t.2.2.2

/-- A `LineNumberTable` entry's bytes. -/
def lineNumberBytes (p : LineNumber) : Bytes :=
  u16bytes p.start_pc ++ u16bytes p.line_number

/-- A `LocalVariableTable` entry's bytes. -/
def localVariableBytes (p : LocalVariable) : Bytes :=
  u16bytes p.start_pc ++ u16bytes p.line_number ++ u16bytes p.name_index ++
    u16bytes p.descriptor_index ++ u16bytes p.index

/-- A `LocalVariableTypeTable` entry's bytes. -/
def localVariableTypeBytes (p : LocalVariableType) : Bytes :=
  u16bytes p.start_pc ++ u16bytes p.line_number ++ u16bytes p.name_index ++
    u16bytes p.signature_index ++ u16bytes p.index

/-- A `BootstrapMethods` entry's bytes: the method-handle index, the
argument count, then the argument indices. -/
def bootstrapEntryBytes (ref : Nat) (args : List Nat) : Bytes :=
  u16bytes ref ++ u16bytes args.length ++ (args.map u16bytes).flatten

/-- A well-formed `Code` attribute body built from its components: the two
counts, the code-length-prefixed bytecode, the exception table, and the
nested-attribute count followed by the nested attributes' bytes. -/
def codeBodyBytes (max_stack max_locals : Nat) (code : Bytes)
    (exc : List (Nat × Nat × Nat × Nat)) (k : Nat) (nested : Bytes) : Bytes :=
  u16bytes max_stack ++ u16bytes max_locals ++ u32bytes code.length ++ code ++
    u16bytes exc.length ++ (exc.map quadBytes).flatten ++ u16bytes k ++ nested

/-! ### Decoding lemmas for the encoders -/

theorem u16_split (v : Nat) : u16 (v / 256) (v % 256) = v := by
  simp only [u16]; omega

theorem u32_split (v : Nat) :
    u32 (v / 16777216) (v / 65536 % 256) (v / 256 % 256) (v % 256) = v := by
  simp only [u32]; omega

theorem readU16_encode (v : Nat) (r : Bytes) :
    readU16 (u16bytes v ++ r) = .ok (v, r) := by
  simp only [u16bytes, List.cons_append, List.nil_append, readU16,
    Except.ok.injEq, Prod.mk.injEq, u16, and_true]
  omega

theorem readExcEntry_encode (t : Nat × Nat × Nat × Nat) (r : Bytes) :
    readExcEntry (quadBytes t ++ r) = .ok (t, r) := by
  obtain ⟨a, b, c, d⟩ := t
  simp only [quadBytes, u16bytes, List.cons_append, List.nil_append,
    readExcEntry, Except.ok.injEq, Prod.mk.injEq, u16_split, and_true]

theorem readLineNumberEntry_encode (p : LineNumber) (r : Bytes) :
    readLineNumberEntry (lineNumberBytes p ++ r) = .ok (p, r) := by
  obtain ⟨a, b⟩ := p
  simp only [lineNumberBytes, u16bytes, List.cons_append, List.nil_append,
    readLineNumberEntry, Except.ok.injEq, Prod.mk.injEq, u16_split, and_true]

theorem readLocalVariableEntry_encode (p : LocalVariable) (r : Bytes) :
    readLocalVariableEntry (localVariableBytes p ++ r) = .ok (p, r) := by
  obtain ⟨a, b, c, d, e⟩ := p
  simp only [localVariableBytes, u16bytes, List.cons_append, List.nil_append,
    List.append_assoc, readLocalVariableEntry, Except.ok.injEq, Prod.mk.injEq,
    u16_split, and_true]

theorem readLocalVariableTypeEntry_encode (p : LocalVariableType) (r : Bytes) :
    readLocalVariableTypeEntry (localVariableTypeBytes p ++ r) = .ok (p, r) := by
  obtain ⟨a, b, c, d, e⟩ := p
  simp only [localVariableTypeBytes, u16bytes, List.cons_append,
    List.nil_append, List.append_assoc, readLocalVariableTypeEntry,
    Except.ok.injEq, Prod.mk.injEq, u16_split, and_true]

theorem readInnerClassEntry_encode (pool : List CPEntry)
    (q : Nat × Nat × Nat × Nat) (ic : InnerClass) (r : Bytes)
    (h1 : poolGet pool q.1 = .ok ic.inner_class_info)
    (h2 : poolGet pool q.2.1 = .ok ic.outer_class_info)
    (h3 : poolGet pool q.2.2.1 = .ok ic.inner_name)
    (h4 : ic.inner_class_access_flags = ⟨q.2.2.2⟩) :
    readInnerClassEntry pool (quadBytes q ++ r) = .ok (ic, r) := by
  obtain ⟨a, b, c, d⟩ := q
  obtain ⟨i1, i2, i3, i4⟩ := ic
  dsimp only at h1 h2 h3 h4
  subst h4
  simp only [quadBytes, u16bytes, List.cons_append, List.nil_append,
    readInnerClassEntry, u16_split]
  rw [h1, h2, h3]

theorem readPoolIndexEntry_encode (pool : List CPEntry) (i : Nat) (s : CPEntry)
    (r : Bytes) (h : poolGet pool i = .ok s) :
    readPoolIndexEntry pool (u16bytes i ++ r) = .ok (s, r) := by
  simp only [u16bytes, List.cons_append, List.nil_append, readPoolIndexEntry,
    u16_split]
  rw [h]

/-- Reading a count-prefixed table from the concatenation of the encoded
entries recovers exactly those entries, in order, leaving the suffix. -/
theorem readTable_encode {α β : Type} (f : Bytes → Except PErr (β × Bytes))
    (enc : α → Bytes) (g : α → β) :
    ∀ (l : List α) (r : Bytes),
      (∀ a ∈ l, ∀ s : Bytes, f (enc a ++ s) = .ok (g a, s)) →
      readTable f l.length ((l.map enc).flatten ++ r) = .ok (l.map g, r)
  | [], r, _ => by simp [readTable]
  | a :: l, r, h => by
    have ha := h a (List.mem_cons_self a l) ((l.map enc).flatten ++ r)
    have hl := readTable_encode f enc g l r
      (fun x hx s => h x (List.mem_cons_of_mem a hx) s)
    simp only [List.map_cons, List.flatten_cons, List.append_assoc,
      List.length_cons, readTable]
    rw [ha]
    simp only [hl]

/-! ### Structural lemmas about the decoder -/

/-- One-level unfolding of the fuelled decoder on a cursor holding at least
the 6-byte header. -/
theorem parseF_cons (f b0 b1 b2 b3 b4 b5 : Nat) (rest : Bytes)
    (pool : List CPEntry) :
    Attribute.parseF (f + 1) (b0 :: b1 :: b2 :: b3 :: b4 :: b5 :: rest) pool =
      match poolGet pool (u16 b0 b1) with
      | .error e => some (.error e)
      | .ok name =>
        match dispatchAttr (parseRec f pool) name
            (rest.take (u32 b2 b3 b4 b5)) pool with
        | none => none
        | some (.error e) => some (.error e)
        | some (.ok a) => some (.ok (a, rest.drop (u32 b2 b3 b4 b5))) := rfl

/-- One-level unfolding of `Attribute.parse` on a cursor holding at least
the 6-byte header: resolve the name, slice the body, dispatch. -/
theorem parse_cons (b0 b1 b2 b3 b4 b5 : Nat) (rest : Bytes)
    (pool : List CPEntry) :
    Attribute.parse (b0 :: b1 :: b2 :: b3 :: b4 :: b5 :: rest) pool =
      match poolGet pool (u16 b0 b1) with
      | .error e => .error e
      | .ok name =>
        match dispatchAttr (parseRec (rest.length + 6) pool) name
            (rest.take (u32 b2 b3 b4 b5)) pool with
        | none => .error .truncatedInput
        | some (.error e) => .error e
        | some (.ok a) => .ok (a, rest.drop (u32 b2 b3 b4 b5)) := by
  rw [show Attribute.parse (b0 :: b1 :: b2 :: b3 :: b4 :: b5 :: rest) pool =
      (Attribute.parseF (rest.length + 6 + 1)
        (b0 :: b1 :: b2 :: b3 :: b4 :: b5 :: rest) pool).getD
      (.error .truncatedInput) from rfl]
  rw [parseF_cons]
  generalize poolGet pool (u16 b0 b1) = pg
  cases pg with
  | error e => rfl
  | ok name =>
    dsimp only
    generalize dispatchAttr (parseRec (rest.length + 6) pool) name
        (rest.take (u32 b2 b3 b4 b5)) pool = d
    cases d with
    | none => rfl
    | some r =>
      cases r with
      | error e => rfl
      | ok a => rfl

/-- A cursor shorter than the 6-byte header makes `Attribute.parse` fail
with `struct.error` from the header unpack. -/
theorem parse_short (c : Bytes) (pool : List CPEntry) (h : c.length < 6) :
    Attribute.parse c pool = .error .truncatedInput := by
  rcases c with _ | ⟨b0, c⟩
  · rfl
  rcases c with _ | ⟨b1, c⟩
  · rfl
  rcases c with _ | ⟨b2, c⟩
  · rfl
  rcases c with _ | ⟨b3, c⟩
  · rfl
  rcases c with _ | ⟨b4, c⟩
  · rfl
  rcases c with _ | ⟨b5, c⟩
  · rfl
  simp at h
  omega

/-- A name outside the recognized table always falls through the dispatch
chain to the `UnknownAttribute` fallback, keeping the raw body. -/
theorem dispatchAttr_unknown
    (rec : Bytes → Option (Except PErr (Attribute × Bytes)))
    (name : CPEntry) (info : Bytes) (pool : List CPEntry)
    (h : name.value ∉ recognizedNames) :
    dispatchAttr rec name info pool = some (.ok (.Unknown name info)) := by
  simp only [recognizedNames, List.mem_cons, List.not_mem_nil, or_false,
    not_or] at h
  obtain ⟨h1, h2, h3, h4, h5, h6, h7, h8, h9, h10, h11, h12, h13, h14, h15,
    h16, h17⟩ := h
  simp only [dispatchAttr, if_neg h1, if_neg h2, if_neg h3, if_neg h4,
    if_neg h5, if_neg h6, if_neg h7, if_neg h8, if_neg h9, if_neg h10,
    if_neg h11, if_neg h12, if_neg h13, if_neg h14, if_neg h15, if_neg h16,
    if_neg h17]

/-- Whenever the fuelled decoder returns a value, the cursor held a 6-byte
header and the final cursor is the input with the header and the declared
body length dropped (`List.drop` saturating at the end of the buffer). -/
theorem parseF_ok_shape {f : Nat} {c : Bytes} {pool : List CPEntry}
    {a : Attribute} {c' : Bytes}
    (h : Attribute.parseF f c pool = some (.ok (a, c'))) :
    ∃ b0 b1 b2 b3 b4 b5 rest, c = b0 :: b1 :: b2 :: b3 :: b4 :: b5 :: rest ∧
      c' = rest.drop (u32 b2 b3 b4 b5) := by
  cases f with
  | zero => simp [Attribute.parseF] at h
  | succ f =>
    rcases c with _ | ⟨b0, c⟩
    · simp [Attribute.parseF] at h
    rcases c with _ | ⟨b1, c⟩
    · simp [Attribute.parseF] at h
    rcases c with _ | ⟨b2, c⟩
    · simp [Attribute.parseF] at h
    rcases c with _ | ⟨b3, c⟩
    · simp [Attribute.parseF] at h
    rcases c with _ | ⟨b4, c⟩
    · simp [Attribute.parseF] at h
    rcases c with _ | ⟨b5, rest⟩
    · simp [Attribute.parseF] at h
    rw [parseF_cons] at h
    refine ⟨b0, b1, b2, b3, b4, b5, rest, rfl, ?_⟩
    split at h
    · simp at h
    · split at h
      · simp at h
      · simp at h
      · simp only [Option.some.injEq, Except.ok.injEq, Prod.mk.injEq] at h
        exact h.2.symm

/-- On success the fuelled decoder never grows the cursor. -/
theorem parseF_ok_le {f : Nat} {c : Bytes} {pool : List CPEntry}
    {a : Attribute} {c' : Bytes}
    (h : Attribute.parseF f c pool = some (.ok (a, c'))) :
    c'.length ≤ c.length := by
  obtain ⟨b0, b1, b2, b3, b4, b5, rest, hc, hc'⟩ := parseF_ok_shape h
  subst hc hc'
  simp only [List.length_drop, List.length_cons]
  omega

theorem readU16_length {c : Bytes} {v : Nat} {r : Bytes}
    (h : readU16 c = .ok (v, r)) : r.length + 2 = c.length := by
  rcases c with _ | ⟨x, c⟩
  · simp [readU16] at h
  rcases c with _ | ⟨y, c⟩
  · simp [readU16] at h
  simp only [readU16, Except.ok.injEq, Prod.mk.injEq] at h
  rw [← h.2]
  simp

theorem readExcEntry_le {c : Bytes} {x : Nat × Nat × Nat × Nat} {r : Bytes}
    (h : readExcEntry c = .ok (x, r)) : r.length ≤ c.length := by
  rcases c with _ | ⟨a0, c⟩
  · simp [readExcEntry] at h
  rcases c with _ | ⟨a1, c⟩
  · simp [readExcEntry] at h
  rcases c with _ | ⟨b0, c⟩
  · simp [readExcEntry] at h
  rcases c with _ | ⟨b1, c⟩
  · simp [readExcEntry] at h
  rcases c with _ | ⟨c0, c⟩
  · simp [readExcEntry] at h
  rcases c with _ | ⟨c1, c⟩
  · simp [readExcEntry] at h
  rcases c with _ | ⟨d0, c⟩
  · simp [readExcEntry] at h
  rcases c with _ | ⟨d1, c⟩
  · simp [readExcEntry] at h
  simp only [readExcEntry, Except.ok.injEq, Prod.mk.injEq] at h
  rw [← h.2]
  simp
  omega

/-- A table read never grows the cursor when its entry reader does not. -/
theorem readTable_le {α : Type} {f : Bytes → Except PErr (α × Bytes)}
    (hf : ∀ c x r, f c = .ok (x, r) → r.length ≤ c.length) :
    ∀ {n : Nat} {c : Bytes} {l : List α} {c' : Bytes},
      readTable f n c = .ok (l, c') → c'.length ≤ c.length := by
  intro n
  induction n with
  | zero =>
    intro c l c' h
    simp only [readTable, Except.ok.injEq, Prod.mk.injEq] at h
    rw [← h.2]
  | succ n ih =>
    intro c l c' h
    simp only [readTable] at h
    split at h
    · simp at h
    · rename_i x fp1 heq
      split at h
      · simp at h
      · rename_i xs fp2 heq2
        simp only [Except.ok.injEq, Prod.mk.injEq] at h
        obtain ⟨hl, hc⟩ := h
        subst hc
        have hx := hf c x fp1 heq
        have hxs := ih heq2
        omega

/-- The nested-attribute loop cannot run out of fuel when its step cannot
on any cursor at most as long as the input. -/
theorem attrLoop_isSome
    (step : Bytes → Option (Except PErr (Attribute × Bytes))) (F : Nat)
    (hstep : ∀ fp : Bytes, fp.length < F → (step fp).isSome)
    (hle : ∀ (fp : Bytes) (a : Attribute) (fp' : Bytes),
      step fp = some (.ok (a, fp')) → fp'.length ≤ fp.length) :
    ∀ (k : Nat) (c : Bytes), c.length < F → (attrLoop step k c).isSome := by
  intro k
  induction k with
  | zero => intro c _; simp [attrLoop]
  | succ k ih =>
    intro c hc
    simp only [attrLoop]
    obtain ⟨r, hs⟩ := Option.isSome_iff_exists.mp (hstep c hc)
    rw [hs]
    cases r with
    | error e => simp
    | ok p =>
      obtain ⟨a, c1⟩ := p
      dsimp only
      have h1 : c1.length < F := lt_of_le_of_lt (hle c a c1 hs) hc
      obtain ⟨r2, hl⟩ := Option.isSome_iff_exists.mp (ih c1 h1)
      rw [hl]
      cases r2 with
      | error e => simp
      | ok q =>
        obtain ⟨l, fp2⟩ := q
        simp

/-- `Attribute_Code._parse` cannot run out of fuel when the recursive call
cannot on cursors shorter than `F` and the body is shorter than `F`. -/
theorem codeParse_isSome
    (rec : Bytes → Option (Except PErr (Attribute × Bytes))) (F : Nat)
    (name : CPEntry) (fp : Bytes) (pool : List CPEntry)
    (hrec : ∀ c : Bytes, c.length < F → (rec c).isSome)
    (hle : ∀ (c : Bytes) (a : Attribute) (c' : Bytes),
      rec c = some (.ok (a, c')) → c'.length ≤ c.length)
    (hfp : fp.length < F) :
    (Attribute_Code_parse rec name fp pool).isSome := by
  rcases fp with _ | ⟨a0, fp⟩
  · simp [Attribute_Code_parse]
  rcases fp with _ | ⟨a1, fp⟩
  · simp [Attribute_Code_parse]
  rcases fp with _ | ⟨b0, fp⟩
  · simp [Attribute_Code_parse]
  rcases fp with _ | ⟨b1, fp⟩
  · simp [Attribute_Code_parse]
  rcases fp with _ | ⟨c0, fp⟩
  · simp [Attribute_Code_parse]
  rcases fp with _ | ⟨c1, fp⟩
  · simp [Attribute_Code_parse]
  rcases fp with _ | ⟨c2, fp⟩
  · simp [Attribute_Code_parse]
  rcases fp with _ | ⟨c3, r8⟩
  · simp [Attribute_Code_parse]
  simp only [Attribute_Code_parse]
  split
  · simp
  rename_i p1 n r2 h1
  split
  · simp
  rename_i p2 et r3 h2
  split
  · simp
  rename_i p3 k r4 h3
  have hr4 : r4.length < F := by
    have e1 := readU16_length h1
    have e2 := readTable_le (fun c x r h => readExcEntry_le h) h2
    have e3 := readU16_length h3
    have e4 : (r8.drop (u32 c0 c1 c2 c3)).length ≤ r8.length := by simp
    simp only [List.length_cons] at hfp
    omega
  obtain ⟨r, hl⟩ := Option.isSome_iff_exists.mp
    (attrLoop_isSome rec F hrec hle k r4 hr4)
  rw [hl]
  cases r with
  | error e => simp
  | ok q =>
    obtain ⟨l, rr⟩ := q
    simp

/-! ### Dispatch equations, one per recognized name -/

theorem dispatchAttr_eq_ConstantValue (rec : Bytes → Option (Except PErr (Attribute × Bytes))) (name : CPEntry) (info : Bytes) (pool : List CPEntry) (h : name.value = "ConstantValue") : dispatchAttr rec name info pool = some (parseConstantValue name info pool) := by
  simp [dispatchAttr, h]

theorem dispatchAttr_eq_Code (rec : Bytes → Option (Except PErr (Attribute × Bytes))) (name : CPEntry) (info : Bytes) (pool : List CPEntry) (h : name.value = "Code") : dispatchAttr rec name info pool = Attribute_Code_parse rec name info pool := by
  simp [dispatchAttr, h]

theorem dispatchAttr_eq_Exceptions (rec : Bytes → Option (Except PErr (Attribute × Bytes))) (name : CPEntry) (info : Bytes) (pool : List CPEntry) (h : name.value = "Exceptions") : dispatchAttr rec name info pool = some (parseExceptions name info pool) := by
  simp [dispatchAttr, h]

theorem dispatchAttr_eq_InnerClasses (rec : Bytes → Option (Except PErr (Attribute × Bytes))) (name : CPEntry) (info : Bytes) (pool : List CPEntry) (h : name.value = "InnerClasses") : dispatchAttr rec name info pool = some (parseInnerClasses name info pool) := by
  simp [dispatchAttr, h]

theorem dispatchAttr_eq_EnclosingMethod (rec : Bytes → Option (Except PErr (Attribute × Bytes))) (name : CPEntry) (info : Bytes) (pool : List CPEntry) (h : name.value = "EnclosingMethod") : dispatchAttr rec name info pool = some (parseEnclosingMethod name info pool) := by
  simp [dispatchAttr, h]

theorem dispatchAttr_eq_Synthetic (rec : Bytes → Option (Except PErr (Attribute × Bytes))) (name : CPEntry) (info : Bytes) (pool : List CPEntry) (h : name.value = "Synthetic") : dispatchAttr rec name info pool = some (parseSynthetic name info pool) := by
  simp [dispatchAttr, h]

theorem dispatchAttr_eq_Signature (rec : Bytes → Option (Except PErr (Attribute × Bytes))) (name : CPEntry) (info : Bytes) (pool : List CPEntry) (h : name.value = "Signature") : dispatchAttr rec name info pool = some (parseSignature name info pool) := by
  simp [dispatchAttr, h]

theorem dispatchAttr_eq_SourceFile (rec : Bytes → Option (Except PErr (Attribute × Bytes))) (name : CPEntry) (info : Bytes) (pool : List CPEntry) (h : name.value = "SourceFile") : dispatchAttr rec name info pool = some (parseSourceFile name info pool) := by
  simp [dispatchAttr, h]

theorem dispatchAttr_eq_SourceDebugExtension (rec : Bytes → Option (Except PErr (Attribute × Bytes))) (name : CPEntry) (info : Bytes) (pool : List CPEntry) (h : name.value = "SourceDebugExtension") : dispatchAttr rec name info pool = some (parseSourceDebugExtension name info pool) := by
  simp [dispatchAttr, h]

theorem dispatchAttr_eq_LineNumberTable (rec : Bytes → Option (Except PErr (Attribute × Bytes))) (name : CPEntry) (info : Bytes) (pool : List CPEntry) (h : name.value = "LineNumberTable") : dispatchAttr rec name info pool = some (parseLineNumberTable name info pool) := by
  simp [dispatchAttr, h]

theorem dispatchAttr_eq_LocalVariableTable (rec : Bytes → Option (Except PErr (Attribute × Bytes))) (name : CPEntry) (info : Bytes) (pool : List CPEntry) (h : name.value = "LocalVariableTable") : dispatchAttr rec name info pool = some (parseLocalVariableTable name info pool) := by
  simp [dispatchAttr, h]

theorem dispatchAttr_eq_LocalVariableTypeTable (rec : Bytes → Option (Except PErr (Attribute × Bytes))) (name : CPEntry) (info : Bytes) (pool : List CPEntry) (h : name.value = "LocalVariableTypeTable") : dispatchAttr rec name info pool = some (parseLocalVariableTypeTable name info pool) := by
  simp [dispatchAttr, h]

theorem dispatchAttr_eq_Deprecated (rec : Bytes → Option (Except PErr (Attribute × Bytes))) (name : CPEntry) (info : Bytes) (pool : List CPEntry) (h : name.value = "Deprecated") : dispatchAttr rec name info pool = some (parseDeprecated name info pool) := by
  simp [dispatchAttr, h]

theorem dispatchAttr_eq_BootstrapMethods (rec : Bytes → Option (Except PErr (Attribute × Bytes))) (name : CPEntry) (info : Bytes) (pool : List CPEntry) (h : name.value = "BootstrapMethods") : dispatchAttr rec name info pool = some (parseBootstrapMethods name info pool) := by
  simp [dispatchAttr, h]

theorem dispatchAttr_eq_ModulePackages (rec : Bytes → Option (Except PErr (Attribute × Bytes))) (name : CPEntry) (info : Bytes) (pool : List CPEntry) (h : name.value = "ModulePackages") : dispatchAttr rec name info pool = some (parseModulePackages name info pool) := by
  simp [dispatchAttr, h]

theorem dispatchAttr_eq_ModuleMainClass (rec : Bytes → Option (Except PErr (Attribute × Bytes))) (name : CPEntry) (info : Bytes) (pool : List CPEntry) (h : name.value = "ModuleMainClass") : dispatchAttr rec name info pool = some (parseModuleMainClass name info pool) := by
  simp [dispatchAttr, h]

theorem dispatchAttr_eq_NestHost (rec : Bytes → Option (Except PErr (Attribute × Bytes))) (name : CPEntry) (info : Bytes) (pool : List CPEntry) (h : name.value = "NestHost") : dispatchAttr rec name info pool = some (parseNestHost name info pool) := by
  simp [dispatchAttr, h]

/-- The dispatch cannot run out of fuel under the same conditions. -/
theorem dispatchAttr_isSome
    (rec : Bytes → Option (Except PErr (Attribute × Bytes))) (F : Nat)
    (name : CPEntry) (info : Bytes) (pool : List CPEntry)
    (hrec : ∀ c : Bytes, c.length < F → (rec c).isSome)
    (hle : ∀ (c : Bytes) (a : Attribute) (c' : Bytes),
      rec c = some (.ok (a, c')) → c'.length ≤ c.length)
    (hinfo : info.length < F) :
    (dispatchAttr rec name info pool).isSome := by
  by_cases h1 : name.value = "ConstantValue"
  · rw [dispatchAttr_eq_ConstantValue rec name info pool h1]; simp
  by_cases h2 : name.value = "Code"
  · rw [dispatchAttr_eq_Code rec name info pool h2]
    exact codeParse_isSome rec F name info pool hrec hle hinfo
  by_cases h3 : name.value = "Exceptions"
  · rw [dispatchAttr_eq_Exceptions rec name info pool h3]; simp
  by_cases h4 : name.value = "InnerClasses"
  · rw [dispatchAttr_eq_InnerClasses rec name info pool h4]; simp
  by_cases h5 : name.value = "EnclosingMethod"
  · rw [dispatchAttr_eq_EnclosingMethod rec name info pool h5]; simp
  by_cases h6 : name.value = "Synthetic"
  · rw [dispatchAttr_eq_Synthetic rec name info pool h6]; simp
  by_cases h7 : name.value = "Signature"
  · rw [dispatchAttr_eq_Signature rec name info pool h7]; simp
  by_cases h8 : name.value = "SourceFile"
  · rw [dispatchAttr_eq_SourceFile rec name info pool h8]; simp
  by_cases h9 : name.value = "SourceDebugExtension"
  · rw [dispatchAttr_eq_SourceDebugExtension rec name info pool h9]; simp
  by_cases h10 : name.value = "LineNumberTable"
  · rw [dispatchAttr_eq_LineNumberTable rec name info pool h10]; simp
  by_cases h11 : name.value = "LocalVariableTable"
  · rw [dispatchAttr_eq_LocalVariableTable rec name info pool h11]; simp
  by_cases h12 : name.value = "LocalVariableTypeTable"
  · rw [dispatchAttr_eq_LocalVariableTypeTable rec name info pool h12]; simp
  by_cases h13 : name.value = "Deprecated"
  · rw [dispatchAttr_eq_Deprecated rec name info pool h13]; simp
  by_cases h14 : name.value = "BootstrapMethods"
  · rw [dispatchAttr_eq_BootstrapMethods rec name info pool h14]; simp
  by_cases h15 : name.value = "ModulePackages"
  · rw [dispatchAttr_eq_ModulePackages rec name info pool h15]; simp
  by_cases h16 : name.value = "ModuleMainClass"
  · rw [dispatchAttr_eq_ModuleMainClass rec name info pool h16]; simp
  by_cases h17 : name.value = "NestHost"
  · rw [dispatchAttr_eq_NestHost rec name info pool h17]; simp
  rw [dispatchAttr_unknown rec name info pool (by
    simp [recognizedNames, h1, h2, h3, h4, h5, h6, h7, h8, h9, h10, h11, h12,
      h13, h14, h15, h16, h17])]
  simp

/-- Fuel adequacy: at fuel `c.length + 1` (or more) the fuelled decoder
always returns a value, so `Attribute.parse` is the real, unbounded
recursion of the source. -/
theorem parseF_isSome :
    ∀ (f : Nat) (c : Bytes) (pool : List CPEntry), c.length < f →
      (Attribute.parseF f c pool).isSome := by
  intro f
  induction f with
  | zero => intro c pool h; omega
  | succ f ih =>
    intro c pool h
    rcases c with _ | ⟨b0, c⟩
    · simp [Attribute.parseF]
    rcases c with _ | ⟨b1, c⟩
    · simp [Attribute.parseF]
    rcases c with _ | ⟨b2, c⟩
    · simp [Attribute.parseF]
    rcases c with _ | ⟨b3, c⟩
    · simp [Attribute.parseF]
    rcases c with _ | ⟨b4, c⟩
    · simp [Attribute.parseF]
    rcases c with _ | ⟨b5, rest⟩
    · simp [Attribute.parseF]
    rw [parseF_cons]
    generalize poolGet pool (u16 b0 b1) = pg
    cases pg with
    | error e => simp
    | ok name =>
      dsimp only
      have hinfo : (rest.take (u32 b2 b3 b4 b5)).length < f := by
        simp only [List.length_cons] at h
        simp only [List.length_take]
        omega
      have hrec : ∀ c : Bytes, c.length < f → (parseRec f pool c).isSome :=
        fun c hc => ih c pool hc
      have hle : ∀ (c : Bytes) (a : Attribute) (c' : Bytes),
          parseRec f pool c = some (.ok (a, c')) → c'.length ≤ c.length :=
        fun c a c' hp => parseF_ok_le hp
      obtain ⟨r, hd⟩ := Option.isSome_iff_exists.mp
        (dispatchAttr_isSome (parseRec f pool) f name
          (rest.take (u32 b2 b3 b4 b5)) pool hrec hle hinfo)
      rw [hd]
      cases r with
      | error e => simp
      | ok a => simp

/-! ### Claim theorems -/

/-- C1: the claim says a symbol index of 0 (the attribute's name index, or
a required variant field such as ConstantValue's index) makes decoding fail
with `InvalidSymbolIndex`.  The code instead evaluates
`constant_pool[0 - 1]`, which Python resolves to the *last* pool entry, and
decoding succeeds: a name index of 0 resolves to the last entry and a
ConstantValue body index of 0 stores the last entry as the constant.  Only
the out-of-range half of the claim holds (third conjunct). -/
theorem pyclass_c1_zero_index_resolves_last :
    Attribute.parse [0, 0, 0, 0, 0, 0] [⟨"A"⟩, ⟨"B"⟩]
        = .ok (.Unknown ⟨"B"⟩ [], []) ∧
    Attribute.parse [0, 1, 0, 0, 0, 2, 0, 0] [⟨"ConstantValue"⟩, ⟨"LAST"⟩]
        = .ok (.ConstantValue ⟨"ConstantValue"⟩ ⟨"LAST"⟩, []) ∧
    Attribute.parse [0, 9, 0, 0, 0, 0] [⟨"A"⟩, ⟨"B"⟩]
        = .error .invalidSymbolIndex :=
  ⟨rfl, rfl, rfl⟩

/-- C2: the claim says an InnerClasses entry with outer-class or inner-name
index 0 decodes to an absent marker.  The code has no absent marker at all:
`constant_pool[0 - 1]` stores the *last* pool entry in those fields, as
this evaluation shows (outer_class_info and inner_name both come out as the
unrelated final pool entry `"LAST"`). -/
theorem pyclass_c2_inner_zero_resolves_last :
    Attribute.parse
      [0, 1, 0, 0, 0, 10, 0, 1, 0, 2, 0, 0, 0, 0, 0, 0]
      [⟨"InnerClasses"⟩, ⟨"Inner"⟩, ⟨"LAST"⟩]
      = .ok (.InnerClasses ⟨"InnerClasses"⟩
          [⟨⟨"Inner"⟩, ⟨"LAST"⟩, ⟨"LAST"⟩, ⟨0⟩⟩], []) := rfl

/-- C3 counterexample: a declared body length (5) exceeding the remaining
bytes (2) does not fail with `TruncatedInput`; `fp.read` silently returns
the short body and the Unknown variant is produced holding it. -/
theorem pyclass_c3_truncated_not_error :
    Attribute.parse [0, 1, 0, 0, 0, 5, 9, 9] [⟨"NotAReal"⟩]
      = .ok (.Unknown ⟨"NotAReal"⟩ [9, 9], []) := rfl

/-- C3 amended: when the declared body length exceeds the remaining bytes,
body extraction does not fail: `fp.read(attribute_length)` silently
truncates the body to the bytes available, and for an unrecognized name
decoding then succeeds with the Unknown variant carrying the short body and
an exhausted outer cursor; `TruncatedInput` can only arise later, inside a
variant decoder that reads past the short body's end. -/
theorem pyclass_c3_amended (b0 b1 b2 b3 b4 b5 : Nat) (rest : Bytes)
    (pool : List CPEntry) (name : CPEntry)
    (hname : poolGet pool (u16 b0 b1) = .ok name)
    (hrec : name.value ∉ recognizedNames)
    (htrunc : rest.length < u32 b2 b3 b4 b5) :
    Attribute.parse (b0 :: b1 :: b2 :: b3 :: b4 :: b5 :: rest) pool
      = .ok (.Unknown name rest, []) := by
  rw [parse_cons, hname]
  dsimp only
  rw [dispatchAttr_unknown _ _ _ _ hrec]
  dsimp only
  rw [List.take_of_length_le (le_of_lt htrunc),
    List.drop_eq_nil_of_le (le_of_lt htrunc)]

theorem pyclass_c3_amended_witness :
    poolGet [⟨"Fancy"⟩] (u16 0 1) = .ok ⟨"Fancy"⟩ ∧
    (⟨"Fancy"⟩ : CPEntry).value ∉ recognizedNames ∧
    ([7, 7, 7] : Bytes).length < u32 0 0 0 9 ∧
    Attribute.parse [0, 1, 0, 0, 0, 9, 7, 7, 7] [⟨"Fancy"⟩]
      = .ok (.Unknown ⟨"Fancy"⟩ [7, 7, 7], []) :=
  ⟨rfl, by decide, by decide,
    pyclass_c3_amended 0 1 0 0 0 9 [7, 7, 7] [⟨"Fancy"⟩] ⟨"Fancy"⟩ rfl
      (by decide) (by decide)⟩

/-- C4 counterexample: on this input `decode_attribute` returns a value
(the Unknown variant) but the outer cursor advanced 8 bytes, not the
6 + 7 = 13 the claim demands, because the declared body length exceeded the
buffer and `fp.read` stopped at its end. -/
theorem pyclass_c4_not_always_full_advance :
    Attribute.parse [0, 1, 0, 0, 0, 7, 1, 2] [⟨"Zed"⟩]
      = .ok (.Unknown ⟨"Zed"⟩ [1, 2], []) ∧
    ([0, 1, 0, 0, 0, 7, 1, 2] : Bytes).length ≠ 6 + 7 + ([] : Bytes).length :=
  ⟨rfl, by decide⟩

/-- C4 amended: whenever `decode_attribute` returns a value, the outer
cursor afterwards is the input cursor advanced past the 6-byte header and
then past `body_length` bytes, *saturating at the end of the buffer*
(`List.drop`): exactly `6 + body_length` whenever the buffer holds the full
declared body, fewer only when the buffer ends first.  The advance is
independent of what the dispatched variant decoder consumed from its
sub-cursor, and sibling bytes beyond the declared body are never consumed. -/
theorem pyclass_c4_amended (c : Bytes) (pool : List CPEntry) (a : Attribute)
    (c' : Bytes) (h : Attribute.parse c pool = .ok (a, c')) :
    ∃ b0 b1 b2 b3 b4 b5 rest, c = b0 :: b1 :: b2 :: b3 :: b4 :: b5 :: rest ∧
      c' = rest.drop (u32 b2 b3 b4 b5) := by
  obtain ⟨r, hr⟩ := Option.isSome_iff_exists.mp
    (parseF_isSome (c.length + 1) c pool (Nat.lt_succ_self _))
  have hp : Attribute.parse c pool = r := by
    unfold Attribute.parse
    rw [hr]
    rfl
  rw [hp] at h
  subst h
  exact parseF_ok_shape hr

theorem pyclass_c4_amended_witness :
    ∃ b0 b1 b2 b3 b4 b5 rest,
      ([0, 1, 0, 0, 0, 1, 5, 6] : Bytes)
        = b0 :: b1 :: b2 :: b3 :: b4 :: b5 :: rest ∧
      ([6] : Bytes) = rest.drop (u32 b2 b3 b4 b5) :=
  pyclass_c4_amended [0, 1, 0, 0, 0, 1, 5, 6] [⟨"Q"⟩]
    (.Unknown ⟨"Q"⟩ [5]) [6] rfl

/-- C7: any input whose resolved name is not one of the recognized variant
names decodes successfully to the Unknown variant carrying the resolved
name and exactly the input body bytes (the declared slice of the cursor),
with the cursor advanced past that body. -/
theorem pyclass_c7_unknown_fallback (b0 b1 b2 b3 b4 b5 : Nat) (rest : Bytes)
    (pool : List CPEntry) (name : CPEntry)
    (hname : poolGet pool (u16 b0 b1) = .ok name)
    (hrec : name.value ∉ recognizedNames) :
    Attribute.parse (b0 :: b1 :: b2 :: b3 :: b4 :: b5 :: rest) pool
      = .ok (.Unknown name (rest.take (u32 b2 b3 b4 b5)),
             rest.drop (u32 b2 b3 b4 b5)) := by
  rw [parse_cons, hname]
  dsimp only
  rw [dispatchAttr_unknown _ _ _ _ hrec]

theorem pyclass_c7_unknown_fallback_witness :
    poolGet [⟨"Groovy"⟩] (u16 0 1) = .ok ⟨"Groovy"⟩ ∧
    (⟨"Groovy"⟩ : CPEntry).value ∉ recognizedNames ∧
    Attribute.parse [0, 1, 0, 0, 0, 2, 3, 4, 5] [⟨"Groovy"⟩]
      = .ok (.Unknown ⟨"Groovy"⟩ [3, 4], [5]) :=
  ⟨rfl, by decide,
    pyclass_c7_unknown_fallback 0 1 0 0 0 2 [3, 4, 5] [⟨"Groovy"⟩]
      ⟨"Groovy"⟩ rfl (by decide)⟩

/-- C9: the decoder is deterministic and depends on nothing besides the
cursor bytes and the symbol table: it is a pure function of the two, so two
runs on equal inputs return structurally identical results. -/
theorem pyclass_c9_deterministic (c1 c2 : Bytes) (p1 p2 : List CPEntry)
    (hc : c1 = c2) (hp : p1 = p2) :
    Attribute.parse c1 p1 = Attribute.parse c2 p2 := by
  rw [hc, hp]

theorem pyclass_c9_deterministic_witness :
    Attribute.parse [0, 1, 0, 0, 0, 0] [⟨"Synthetic"⟩]
      = Attribute.parse [0, 1, 0, 0, 0, 0] [⟨"Synthetic"⟩] :=
  pyclass_c9_deterministic [0, 1, 0, 0, 0, 0] [0, 1, 0, 0, 0, 0]
    [⟨"Synthetic"⟩] [⟨"Synthetic"⟩] rfl rfl

/-! ### Round-trip lemmas for the count-prefixed table variants -/

theorem readBootstrapMethodEntry_encode (pool : List CPEntry) (ref : Nat)
    (args : List (Nat × CPEntry)) (m : CPEntry) (r : Bytes)
    (href : poolGet pool ref = .ok m)
    (hargs : ∀ q ∈ args, poolGet pool q.1 = .ok q.2) :
    readBootstrapMethodEntry pool
        (bootstrapEntryBytes ref (args.map Prod.fst) ++ r)
      = .ok ((m, args.map Prod.snd), r) := by
  simp only [bootstrapEntryBytes, u16bytes, List.cons_append, List.nil_append,
    List.append_assoc, readBootstrapMethodEntry, u16_split, List.length_map,
    List.map_map]
  have hf : ∀ q ∈ args, ∀ s : Bytes,
      readPoolIndexEntry pool ((u16bytes ∘ Prod.fst) q ++ s) = .ok (q.2, s) :=
    fun q hq s => readPoolIndexEntry_encode pool q.1 q.2 s (hargs q hq)
  rw [@readTable_encode (Nat × CPEntry) CPEntry (readPoolIndexEntry pool)
    (u16bytes ∘ Prod.fst) Prod.snd args r hf]
  dsimp only
  rw [href]

theorem tableRT_exceptions (name : CPEntry) (pool : List CPEntry)
    (l : List Nat) (extra : Bytes) :
    l.length < 65536 → (∀ i ∈ l, i < 65536) →
    parseExceptions name (u16bytes l.length ++ (l.map u16bytes).flatten ++ extra)
        pool = .ok (.Exceptions name l) := by
  intro _ _
  unfold parseExceptions
  rw [List.append_assoc, readU16_encode]
  dsimp only
  rw [readTable_encode (fun c => readU16 c) u16bytes (fun x => x) l extra
    (fun a _ s => readU16_encode a s)]
  simp

theorem tableRT_innerClasses (name : CPEntry) (pool : List CPEntry)
    (rs : List ((Nat × Nat × Nat × Nat) × InnerClass)) (extra : Bytes) :
    rs.length < 65536 →
    (∀ p ∈ rs, p.1.1 < 65536 ∧ p.1.2.1 < 65536 ∧ p.1.2.2.1 < 65536 ∧
      p.1.2.2.2 < 65536 ∧
      poolGet pool p.1.1 = .ok p.2.inner_class_info ∧
      poolGet pool p.1.2.1 = .ok p.2.outer_class_info ∧
      poolGet pool p.1.2.2.1 = .ok p.2.inner_name ∧
      p.2.inner_class_access_flags = ⟨p.1.2.2.2⟩) →
    parseInnerClasses name
        (u16bytes rs.length ++ (rs.map (fun p => quadBytes p.1)).flatten ++ extra)
        pool = .ok (.InnerClasses name (rs.map Prod.snd)) := by
  intro _ hprs
  have hf : ∀ p ∈ rs, ∀ s : Bytes,
      readInnerClassEntry pool ((fun p => quadBytes p.1) p ++ s)
        = .ok (p.2, s) := by
    intro p hp s
    obtain ⟨-, -, -, -, h1, h2, h3, h4⟩ := hprs p hp
    exact readInnerClassEntry_encode pool p.1 p.2 s h1 h2 h3 h4
  unfold parseInnerClasses
  rw [List.append_assoc, readU16_encode]
  dsimp only
  rw [@readTable_encode ((Nat × Nat × Nat × Nat) × InnerClass) InnerClass
    (readInnerClassEntry pool) (fun p => quadBytes p.1) Prod.snd rs extra hf]

theorem tableRT_lineNumbers (name : CPEntry) (pool : List CPEntry)
    (l : List LineNumber) (extra : Bytes) :
    l.length < 65536 →
    (∀ p ∈ l, p.start_pc < 65536 ∧ p.line_number < 65536) →
    parseLineNumberTable name
        (u16bytes l.length ++ (l.map lineNumberBytes).flatten ++ extra) pool
      = .ok (.LineNumberTable name l) := by
  intro _ _
  unfold parseLineNumberTable
  rw [List.append_assoc, readU16_encode]
  dsimp only
  rw [readTable_encode readLineNumberEntry lineNumberBytes (fun x => x) l extra
    (fun a _ s => readLineNumberEntry_encode a s)]
  simp

theorem tableRT_localVariables (name : CPEntry) (pool : List CPEntry)
    (l : List LocalVariable) (extra : Bytes) :
    l.length < 65536 →
    (∀ p ∈ l, p.start_pc < 65536 ∧ p.line_number < 65536 ∧
      p.name_index < 65536 ∧ p.descriptor_index < 65536 ∧ p.index < 65536) →
    parseLocalVariableTable name
        (u16bytes l.length ++ (l.map localVariableBytes).flatten ++ extra) pool
      = .ok (.LocalVariableTable name l) := by
  intro _ _
  unfold parseLocalVariableTable
  rw [List.append_assoc, readU16_encode]
  dsimp only
  rw [readTable_encode readLocalVariableEntry localVariableBytes (fun x => x)
    l extra (fun a _ s => readLocalVariableEntry_encode a s)]
  simp

theorem tableRT_localVariableTypes (name : CPEntry) (pool : List CPEntry)
    (l : List LocalVariableType) (extra : Bytes) :
    l.length < 65536 →
    (∀ p ∈ l, p.start_pc < 65536 ∧ p.line_number < 65536 ∧
      p.name_index < 65536 ∧ p.signature_index < 65536 ∧ p.index < 65536) →
    parseLocalVariableTypeTable name
        (u16bytes l.length ++ (l.map localVariableTypeBytes).flatten ++ extra)
        pool = .ok (.LocalVariableTypeTable name l) := by
  intro _ _
  unfold parseLocalVariableTypeTable
  rw [List.append_assoc, readU16_encode]
  dsimp only
  rw [readTable_encode readLocalVariableTypeEntry localVariableTypeBytes
    (fun x => x) l extra (fun a _ s => readLocalVariableTypeEntry_encode a s)]
  simp

theorem tableRT_bootstrapMethods (name : CPEntry) (pool : List CPEntry)
    (rs : List ((Nat × List (Nat × CPEntry)) × CPEntry)) (extra : Bytes) :
    rs.length < 65536 →
    (∀ p ∈ rs, p.1.1 < 65536 ∧ p.1.2.length < 65536 ∧
      (∀ q ∈ p.1.2, q.1 < 65536) ∧
      poolGet pool p.1.1 = .ok p.2 ∧
      (∀ q ∈ p.1.2, poolGet pool q.1 = .ok q.2)) →
    parseBootstrapMethods name
        (u16bytes rs.length ++
          (rs.map (fun p => bootstrapEntryBytes p.1.1 (p.1.2.map Prod.fst))).flatten
          ++ extra) pool
      = .ok (.BootstrapMethods name
          (rs.map (fun p => (p.2, p.1.2.map Prod.snd)))) := by
  intro _ hprs
  have hf : ∀ p ∈ rs, ∀ s : Bytes,
      readBootstrapMethodEntry pool
          ((fun p => bootstrapEntryBytes p.1.1 (p.1.2.map Prod.fst)) p ++ s)
        = .ok ((fun p => (p.2, p.1.2.map Prod.snd)) p, s) := by
    intro p hp s
    obtain ⟨-, -, -, h1, h2⟩ := hprs p hp
    exact readBootstrapMethodEntry_encode pool p.1.1 p.1.2 p.2 s h1 h2
  unfold parseBootstrapMethods
  rw [List.append_assoc, readU16_encode]
  dsimp only
  rw [@readTable_encode ((Nat × List (Nat × CPEntry)) × CPEntry)
    (CPEntry × List CPEntry) (readBootstrapMethodEntry pool)
    (fun p => bootstrapEntryBytes p.1.1 (p.1.2.map Prod.fst))
    (fun p => (p.2, p.1.2.map Prod.snd)) rs extra hf]

theorem tableRT_modulePackages (name : CPEntry) (pool : List CPEntry)
    (rs : List (Nat × CPEntry)) (extra : Bytes) :
    rs.length < 65536 →
    (∀ q ∈ rs, q.1 < 65536 ∧ poolGet pool q.1 = .ok q.2) →
    parseModulePackages name
        (u16bytes rs.length ++ (rs.map (fun q => u16bytes q.1)).flatten ++ extra)
        pool = .ok (.ModulePackages name (rs.map Prod.snd)) := by
  intro _ hprs
  have hf : ∀ q ∈ rs, ∀ s : Bytes,
      readPoolIndexEntry pool ((fun q => u16bytes q.1) q ++ s) = .ok (q.2, s) :=
    fun q hq s => readPoolIndexEntry_encode pool q.1 q.2 s (hprs q hq).2
  unfold parseModulePackages
  rw [List.append_assoc, readU16_encode]
  dsimp only
  rw [@readTable_encode (Nat × CPEntry) CPEntry (readPoolIndexEntry pool)
    (fun q => u16bytes q.1) Prod.snd rs extra hf]

/-- C6: for every well-formed body of a count-prefixed table variant
(Exceptions, InnerClasses, LineNumberTable, LocalVariableTable,
LocalVariableTypeTable, BootstrapMethods, ModulePackages), the resulting
sequence is exactly the encoded entry list: its length equals the declared
2-byte count (the list the count was computed from) and its element order
equals the order of the entries in the input bytes, with no sorting and no
deduplication.  Trailing bytes `extra` beyond the entries are ignored. -/
theorem pyclass_c6_tables :
    (∀ (name : CPEntry) (pool : List CPEntry) (l : List Nat) (extra : Bytes),
      l.length < 65536 → (∀ i ∈ l, i < 65536) →
      parseExceptions name
          (u16bytes l.length ++ (l.map u16bytes).flatten ++ extra) pool
        = .ok (.Exceptions name l)) ∧
    (∀ (name : CPEntry) (pool : List CPEntry)
      (rs : List ((Nat × Nat × Nat × Nat) × InnerClass)) (extra : Bytes),
      rs.length < 65536 →
      (∀ p ∈ rs, p.1.1 < 65536 ∧ p.1.2.1 < 65536 ∧ p.1.2.2.1 < 65536 ∧
        p.1.2.2.2 < 65536 ∧
        poolGet pool p.1.1 = .ok p.2.inner_class_info ∧
        poolGet pool p.1.2.1 = .ok p.2.outer_class_info ∧
        poolGet pool p.1.2.2.1 = .ok p.2.inner_name ∧
        p.2.inner_class_access_flags = ⟨p.1.2.2.2⟩) →
      parseInnerClasses name
          (u16bytes rs.length ++ (rs.map (fun p => quadBytes p.1)).flatten
            ++ extra) pool
        = .ok (.InnerClasses name (rs.map Prod.snd))) ∧
    (∀ (name : CPEntry) (pool : List CPEntry) (l : List LineNumber)
      (extra : Bytes),
      l.length < 65536 →
      (∀ p ∈ l, p.start_pc < 65536 ∧ p.line_number < 65536) →
      parseLineNumberTable name
          (u16bytes l.length ++ (l.map lineNumberBytes).flatten ++ extra) pool
        = .ok (.LineNumberTable name l)) ∧
    (∀ (name : CPEntry) (pool : List CPEntry) (l : List LocalVariable)
      (extra : Bytes),
      l.length < 65536 →
      (∀ p ∈ l, p.start_pc < 65536 ∧ p.line_number < 65536 ∧
        p.name_index < 65536 ∧ p.descriptor_index < 65536 ∧ p.index < 65536) →
      parseLocalVariableTable name
          (u16bytes l.length ++ (l.map localVariableBytes).flatten ++ extra)
          pool
        = .ok (.LocalVariableTable name l)) ∧
    (∀ (name : CPEntry) (pool : List CPEntry) (l : List LocalVariableType)
      (extra : Bytes),
      l.length < 65536 →
      (∀ p ∈ l, p.start_pc < 65536 ∧ p.line_number < 65536 ∧
        p.name_index < 65536 ∧ p.signature_index < 65536 ∧ p.index < 65536) →
      parseLocalVariableTypeTable name
          (u16bytes l.length ++ (l.map localVariableTypeBytes).flatten ++ extra)
          pool
        = .ok (.LocalVariableTypeTable name l)) ∧
    (∀ (name : CPEntry) (pool : List CPEntry)
      (rs : List ((Nat × List (Nat × CPEntry)) × CPEntry)) (extra : Bytes),
      rs.length < 65536 →
      (∀ p ∈ rs, p.1.1 < 65536 ∧ p.1.2.length < 65536 ∧
        (∀ q ∈ p.1.2, q.1 < 65536) ∧
        poolGet pool p.1.1 = .ok p.2 ∧
        (∀ q ∈ p.1.2, poolGet pool q.1 = .ok q.2)) →
      parseBootstrapMethods name
          (u16bytes rs.length ++
            (rs.map
              (fun p => bootstrapEntryBytes p.1.1 (p.1.2.map Prod.fst))).flatten
            ++ extra) pool
        = .ok (.BootstrapMethods name
            (rs.map (fun p => (p.2, p.1.2.map Prod.snd))))) ∧
    (∀ (name : CPEntry) (pool : List CPEntry) (rs : List (Nat × CPEntry))
      (extra : Bytes),
      rs.length < 65536 →
      (∀ q ∈ rs, q.1 < 65536 ∧ poolGet pool q.1 = .ok q.2) →
      parseModulePackages name
          (u16bytes rs.length ++ (rs.map (fun q => u16bytes q.1)).flatten
            ++ extra) pool
        = .ok (.ModulePackages name (rs.map Prod.snd))) :=
  ⟨tableRT_exceptions, tableRT_innerClasses, tableRT_lineNumbers,
    tableRT_localVariables, tableRT_localVariableTypes,
    tableRT_bootstrapMethods, tableRT_modulePackages⟩

theorem pyclass_c6_tables_witness :
    parseExceptions ⟨"Exceptions"⟩ [0, 2, 0, 3, 0, 7] []
      = .ok (.Exceptions ⟨"Exceptions"⟩ [3, 7]) ∧
    parseInnerClasses ⟨"InnerClasses"⟩ [0, 1, 0, 1, 0, 2, 0, 1, 0, 5]
        [⟨"A"⟩, ⟨"B"⟩]
      = .ok (.InnerClasses ⟨"InnerClasses"⟩ [⟨⟨"A"⟩, ⟨"B"⟩, ⟨"A"⟩, ⟨5⟩⟩]) ∧
    parseLineNumberTable ⟨"LineNumberTable"⟩ [0, 2, 0, 0, 0, 10, 0, 4, 0, 11]
        []
      = .ok (.LineNumberTable ⟨"LineNumberTable"⟩ [⟨0, 10⟩, ⟨4, 11⟩]) ∧
    parseLocalVariableTable ⟨"LocalVariableTable"⟩
        [0, 1, 0, 1, 0, 2, 0, 3, 0, 4, 0, 5] []
      = .ok (.LocalVariableTable ⟨"LocalVariableTable"⟩ [⟨1, 2, 3, 4, 5⟩]) ∧
    parseLocalVariableTypeTable ⟨"LocalVariableTypeTable"⟩
        [0, 1, 0, 6, 0, 7, 0, 8, 0, 9, 0, 10] []
      = .ok (.LocalVariableTypeTable ⟨"LocalVariableTypeTable"⟩
          [⟨6, 7, 8, 9, 10⟩]) ∧
    parseBootstrapMethods ⟨"BootstrapMethods"⟩ [0, 1, 0, 1, 0, 1, 0, 2]
        [⟨"M"⟩, ⟨"X"⟩]
      = .ok (.BootstrapMethods ⟨"BootstrapMethods"⟩ [(⟨"M"⟩, [⟨"X"⟩])]) ∧
    parseModulePackages ⟨"ModulePackages"⟩ [0, 1, 0, 1] [⟨"P"⟩]
      = .ok (.ModulePackages ⟨"ModulePackages"⟩ [⟨"P"⟩]) :=
  ⟨pyclass_c6_tables.1 ⟨"Exceptions"⟩ [] [3, 7] [] (by decide) (by decide),
   pyclass_c6_tables.2.1 ⟨"InnerClasses"⟩ [⟨"A"⟩, ⟨"B"⟩]
     [((1, 2, 1, 5), ⟨⟨"A"⟩, ⟨"B"⟩, ⟨"A"⟩, ⟨5⟩⟩)] [] (by decide) (by
       intro p hp
       simp only [List.mem_singleton] at hp
       subst hp
       exact ⟨by decide, by decide, by decide, by decide, rfl, rfl, rfl,
         rfl⟩),
   pyclass_c6_tables.2.2.1 ⟨"LineNumberTable"⟩ [] [⟨0, 10⟩, ⟨4, 11⟩] []
     (by decide) (by decide),
   pyclass_c6_tables.2.2.2.1 ⟨"LocalVariableTable"⟩ [] [⟨1, 2, 3, 4, 5⟩] []
     (by decide) (by decide),
   pyclass_c6_tables.2.2.2.2.1 ⟨"LocalVariableTypeTable"⟩ []
     [⟨6, 7, 8, 9, 10⟩] [] (by decide) (by decide),
   pyclass_c6_tables.2.2.2.2.2.1 ⟨"BootstrapMethods"⟩ [⟨"M"⟩, ⟨"X"⟩]
     [((1, [(2, ⟨"X"⟩)]), ⟨"M"⟩)] [] (by decide) (by
       intro p hp
       simp only [List.mem_singleton] at hp
       subst hp
       refine ⟨by decide, by decide, by decide, rfl, ?_⟩
       intro q hq
       simp only [List.mem_singleton] at hq
       subst hq
       rfl),
   pyclass_c6_tables.2.2.2.2.2.2 ⟨"ModulePackages"⟩ [⟨"P"⟩] [(1, ⟨"P"⟩)] []
     (by decide) (by
       intro q hq
       simp only [List.mem_singleton] at hq
       subst hq
       exact ⟨by decide, rfl⟩)⟩

/-- C5: decoding a well-formed Code attribute body reads the two 2-byte
counts, the 4-byte code length followed by exactly that many raw bytecode
bytes, the 2-byte exception-table count followed by that many 8-byte
entries, and the 2-byte attribute count `k`; what remains is exactly the
`nested` byte region, handed unchanged to the loop of `k` recursive
`decode_attribute` calls (`attrLoop` of `parseRec`, the recursive call of
`Attribute.parseF`) against the same symbol table — so the recursion reads
no bytes of the bytecode or exception-table regions and each nested
attribute is scoped to its own declared sub-length by `Attribute.parseF`
itself. -/
theorem pyclass_c5_code_layout (f : Nat) (name : CPEntry)
    (pool : List CPEntry) (max_stack max_locals : Nat) (code : Bytes)
    (exc : List (Nat × Nat × Nat × Nat)) (k : Nat) (nested : Bytes)
    (_hms : max_stack < 65536) (_hml : max_locals < 65536)
    (_hcl : code.length < 4294967296) (_hex : exc.length < 65536)
    (_hexel : ∀ e ∈ exc, e.1 < 65536 ∧ e.2.1 < 65536 ∧ e.2.2.1 < 65536 ∧
      e.2.2.2 < 65536)
    (_hk : k < 65536) :
    Attribute_Code_parse (parseRec f pool) name
        (codeBodyBytes max_stack max_locals code exc k nested) pool
      = match attrLoop (parseRec f pool) k nested with
        | none => none
        | some (.error e) => some (.error e)
        | some (.ok (l, _)) =>
          some (.ok (.Code name max_stack max_locals code exc l)) := by
  rw [show codeBodyBytes max_stack max_locals code exc k nested
      = (max_stack / 256) :: (max_stack % 256) :: (max_locals / 256) ::
        (max_locals % 256) :: (code.length / 16777216) ::
        (code.length / 65536 % 256) :: (code.length / 256 % 256) ::
        (code.length % 256) ::
        (code ++ (u16bytes exc.length ++ ((exc.map quadBytes).flatten ++
          (u16bytes k ++ nested))))
      from by simp [codeBodyBytes, u16bytes, u32bytes]]
  unfold Attribute_Code_parse
  dsimp only
  simp only [u16_split, u32_split]
  rw [List.drop_left, List.take_left, readU16_encode]
  dsimp only
  rw [@readTable_encode (Nat × Nat × Nat × Nat) (Nat × Nat × Nat × Nat)
    readExcEntry quadBytes (fun x => x) exc (u16bytes k ++ nested)
    (fun a _ s => readExcEntry_encode a s)]
  dsimp only
  rw [readU16_encode]
  simp only [List.map_id']

theorem pyclass_c5_code_layout_witness :
    (1 : Nat) < 65536 ∧ (2 : Nat) < 65536 ∧
    ([9] : Bytes).length < 4294967296 ∧
    ([(1, 2, 3, 4)] : List (Nat × Nat × Nat × Nat)).length < 65536 ∧
    (∀ e ∈ [((1 : Nat), (2 : Nat), (3 : Nat), (4 : Nat))], e.1 < 65536 ∧
      e.2.1 < 65536 ∧ e.2.2.1 < 65536 ∧ e.2.2.2 < 65536) ∧
    (1 : Nat) < 65536 ∧
    Attribute_Code_parse (parseRec 7 [⟨"Blah"⟩]) ⟨"Code"⟩
        (codeBodyBytes 1 2 [9] [(1, 2, 3, 4)] 1 [0, 1, 0, 0, 0, 0]) [⟨"Blah"⟩]
      = some (.ok (.Code ⟨"Code"⟩ 1 2 [9] [(1, 2, 3, 4)]
          [.Unknown ⟨"Blah"⟩ []])) :=
  ⟨by decide, by decide, by decide, by decide, by decide, by decide, by
    rw [pyclass_c5_code_layout 7 ⟨"Code"⟩ [⟨"Blah"⟩] 1 2 [9] [(1, 2, 3, 4)] 1
      [0, 1, 0, 0, 0, 0] (by decide) (by decide) (by decide) (by decide)
      (by decide) (by decide)]
    rfl⟩

/-! ### Shape lemmas: each variant decoder only ever builds its own variant,
carrying the dispatched name -/

theorem parseConstantValue_shape {name : CPEntry} {fp : Bytes}
    {pool : List CPEntry} {a : Attribute}
    (h : parseConstantValue name fp pool = .ok a) :
    a.attrName = name ∧ a.variantName = some "ConstantValue" := by
  unfold parseConstantValue at h
  split at h
  · simp at h
  · split at h
    · simp at h
    · simp only [Except.ok.injEq] at h
      subst h
      exact ⟨rfl, rfl⟩

theorem parseExceptions_shape {name : CPEntry} {fp : Bytes}
    {pool : List CPEntry} {a : Attribute}
    (h : parseExceptions name fp pool = .ok a) :
    a.attrName = name ∧ a.variantName = some "Exceptions" := by
  unfold parseExceptions at h
  split at h
  · simp at h
  · split at h
    · simp at h
    · simp only [Except.ok.injEq] at h
      subst h
      exact ⟨rfl, rfl⟩

theorem parseInnerClasses_shape {name : CPEntry} {fp : Bytes}
    {pool : List CPEntry} {a : Attribute}
    (h : parseInnerClasses name fp pool = .ok a) :
    a.attrName = name ∧ a.variantName = some "InnerClasses" := by
  unfold parseInnerClasses at h
  split at h
  · simp at h
  · split at h
    · simp at h
    · simp only [Except.ok.injEq] at h
      subst h
      exact ⟨rfl, rfl⟩

theorem parseEnclosingMethod_shape {name : CPEntry} {fp : Bytes}
    {pool : List CPEntry} {a : Attribute}
    (h : parseEnclosingMethod name fp pool = .ok a) :
    a.attrName = name ∧ a.variantName = some "EnclosingMethod" := by
  unfold parseEnclosingMethod at h
  split at h
  · split at h
    · simp at h
    · split at h
      · simp at h
      · simp only [Except.ok.injEq] at h
        subst h
        exact ⟨rfl, rfl⟩
  · simp at h

theorem parseSynthetic_shape {name : CPEntry} {fp : Bytes}
    {pool : List CPEntry} {a : Attribute}
    (h : parseSynthetic name fp pool = .ok a) :
    a.attrName = name ∧ a.variantName = some "Synthetic" := by
  unfold parseSynthetic at h
  simp only [Except.ok.injEq] at h
  subst h
  exact ⟨rfl, rfl⟩

theorem parseSignature_shape {name : CPEntry} {fp : Bytes}
    {pool : List CPEntry} {a : Attribute}
    (h : parseSignature name fp pool = .ok a) :
    a.attrName = name ∧ a.variantName = some "Signature" := by
  unfold parseSignature at h
  split at h
  · simp at h
  · split at h
    · simp at h
    · simp only [Except.ok.injEq] at h
      subst h
      exact ⟨rfl, rfl⟩

theorem parseSourceFile_shape {name : CPEntry} {fp : Bytes}
    {pool : List CPEntry} {a : Attribute}
    (h : parseSourceFile name fp pool = .ok a) :
    a.attrName = name ∧ a.variantName = some "SourceFile" := by
  unfold parseSourceFile at h
  split at h
  · simp at h
  · split at h
    · simp at h
    · simp only [Except.ok.injEq] at h
      subst h
      exact ⟨rfl, rfl⟩

theorem parseSourceDebugExtension_shape {name : CPEntry} {fp : Bytes}
    {pool : List CPEntry} {a : Attribute}
    (h : parseSourceDebugExtension name fp pool = .ok a) :
    a.attrName = name ∧ a.variantName = some "SourceDebugExtension" := by
  unfold parseSourceDebugExtension at h
  simp only [Except.ok.injEq] at h
  subst h
  exact ⟨rfl, rfl⟩

theorem parseLineNumberTable_shape {name : CPEntry} {fp : Bytes}
    {pool : List CPEntry} {a : Attribute}
    (h : parseLineNumberTable name fp pool = .ok a) :
    a.attrName = name ∧ a.variantName = some "LineNumberTable" := by
  unfold parseLineNumberTable at h
  split at h
  · simp at h
  · split at h
    · simp at h
    · simp only [Except.ok.injEq] at h
      subst h
      exact ⟨rfl, rfl⟩

theorem parseLocalVariableTable_shape {name : CPEntry} {fp : Bytes}
    {pool : List CPEntry} {a : Attribute}
    (h : parseLocalVariableTable name fp pool = .ok a) :
    a.attrName = name ∧ a.variantName = some "LocalVariableTable" := by
  unfold parseLocalVariableTable at h
  split at h
  · simp at h
  · split at h
    · simp at h
    · simp only [Except.ok.injEq] at h
      subst h
      exact ⟨rfl, rfl⟩

theorem parseLocalVariableTypeTable_shape {name : CPEntry} {fp : Bytes}
    {pool : List CPEntry} {a : Attribute}
    (h : parseLocalVariableTypeTable name fp pool = .ok a) :
    a.attrName = name ∧ a.variantName = some "LocalVariableTypeTable" := by
  unfold parseLocalVariableTypeTable at h
  split at h
  · simp at h
  · split at h
    · simp at h
    · simp only [Except.ok.injEq] at h
      subst h
      exact ⟨rfl, rfl⟩

theorem parseDeprecated_shape {name : CPEntry} {fp : Bytes}
    {pool : List CPEntry} {a : Attribute}
    (h : parseDeprecated name fp pool = .ok a) :
    a.attrName = name ∧ a.variantName = some "Deprecated" := by
  unfold parseDeprecated at h
  simp only [Except.ok.injEq] at h
  subst h
  exact ⟨rfl, rfl⟩

theorem parseBootstrapMethods_shape {name : CPEntry} {fp : Bytes}
    {pool : List CPEntry} {a : Attribute}
    (h : parseBootstrapMethods name fp pool = .ok a) :
    a.attrName = name ∧ a.variantName = some "BootstrapMethods" := by
  unfold parseBootstrapMethods at h
  split at h
  · simp at h
  · split at h
    · simp at h
    · simp only [Except.ok.injEq] at h
      subst h
      exact ⟨rfl, rfl⟩

theorem parseModulePackages_shape {name : CPEntry} {fp : Bytes}
    {pool : List CPEntry} {a : Attribute}
    (h : parseModulePackages name fp pool = .ok a) :
    a.attrName = name ∧ a.variantName = some "ModulePackages" := by
  unfold parseModulePackages at h
  split at h
  · simp at h
  · split at h
    · simp at h
    · simp only [Except.ok.injEq] at h
      subst h
      exact ⟨rfl, rfl⟩

theorem parseModuleMainClass_shape {name : CPEntry} {fp : Bytes}
    {pool : List CPEntry} {a : Attribute}
    (h : parseModuleMainClass name fp pool = .ok a) :
    a.attrName = name ∧ a.variantName = some "ModuleMainClass" := by
  unfold parseModuleMainClass at h
  split at h
  · simp at h
  · split at h
    · simp at h
    · simp only [Except.ok.injEq] at h
      subst h
      exact ⟨rfl, rfl⟩

theorem parseNestHost_shape {name : CPEntry} {fp : Bytes}
    {pool : List CPEntry} {a : Attribute}
    (h : parseNestHost name fp pool = .ok a) :
    a.attrName = name ∧ a.variantName = some "NestHost" := by
  unfold parseNestHost at h
  split at h
  · simp at h
  · split at h
    · simp at h
    · simp only [Except.ok.injEq] at h
      subst h
      exact ⟨rfl, rfl⟩

theorem codeParse_shape
    {rec : Bytes → Option (Except PErr (Attribute × Bytes))} {name : CPEntry}
    {fp : Bytes} {pool : List CPEntry} {a : Attribute}
    (h : Attribute_Code_parse rec name fp pool = some (.ok a)) :
    a.attrName = name ∧ a.variantName = some "Code" := by
  unfold Attribute_Code_parse at h
  split at h
  · split at h
    · simp at h
    · split at h
      · simp at h
      · split at h
        · simp at h
        · split at h
          · simp at h
          · simp at h
          · simp only [Option.some.injEq, Except.ok.injEq] at h
            subst h
            exact ⟨rfl, rfl⟩
  · simp at h

/-- Whenever the dispatch returns a variant, the variant's `name` field is
the dispatched name and the variant is the one the name selects: a
recognized name yields exactly its corresponding variant, any other name
yields the fallback. -/
theorem dispatchAttr_ok_shape
    {rec : Bytes → Option (Except PErr (Attribute × Bytes))} {name : CPEntry}
    {info : Bytes} {pool : List CPEntry} {a : Attribute}
    (h : dispatchAttr rec name info pool = some (.ok a)) :
    a.attrName = name ∧
      ((name.value ∈ recognizedNames ∧ a.variantName = some name.value) ∨
       (name.value ∉ recognizedNames ∧ a.variantName = none)) := by
  by_cases h1 : name.value = "ConstantValue"
  · rw [dispatchAttr_eq_ConstantValue rec name info pool h1] at h
    simp only [Option.some.injEq] at h
    obtain ⟨ha, hv⟩ := parseConstantValue_shape h
    exact ⟨ha, .inl ⟨by rw [h1]; simp [recognizedNames], by rw [hv, h1]⟩⟩
  by_cases h2 : name.value = "Code"
  · rw [dispatchAttr_eq_Code rec name info pool h2] at h
    obtain ⟨ha, hv⟩ := codeParse_shape h
    exact ⟨ha, .inl ⟨by rw [h2]; simp [recognizedNames], by rw [hv, h2]⟩⟩
  by_cases h3 : name.value = "Exceptions"
  · rw [dispatchAttr_eq_Exceptions rec name info pool h3] at h
    simp only [Option.some.injEq] at h
    obtain ⟨ha, hv⟩ := parseExceptions_shape h
    exact ⟨ha, .inl ⟨by rw [h3]; simp [recognizedNames], by rw [hv, h3]⟩⟩
  by_cases h4 : name.value = "InnerClasses"
  · rw [dispatchAttr_eq_InnerClasses rec name info pool h4] at h
    simp only [Option.some.injEq] at h
    obtain ⟨ha, hv⟩ := parseInnerClasses_shape h
    exact ⟨ha, .inl ⟨by rw [h4]; simp [recognizedNames], by rw [hv, h4]⟩⟩
  by_cases h5 : name.value = "EnclosingMethod"
  · rw [dispatchAttr_eq_EnclosingMethod rec name info pool h5] at h
    simp only [Option.some.injEq] at h
    obtain ⟨ha, hv⟩ := parseEnclosingMethod_shape h
    exact ⟨ha, .inl ⟨by rw [h5]; simp [recognizedNames], by rw [hv, h5]⟩⟩
  by_cases h6 : name.value = "Synthetic"
  · rw [dispatchAttr_eq_Synthetic rec name info pool h6] at h
    simp only [Option.some.injEq] at h
    obtain ⟨ha, hv⟩ := parseSynthetic_shape h
    exact ⟨ha, .inl ⟨by rw [h6]; simp [recognizedNames], by rw [hv, h6]⟩⟩
  by_cases h7 : name.value = "Signature"
  · rw [dispatchAttr_eq_Signature rec name info pool h7] at h
    simp only [Option.some.injEq] at h
    obtain ⟨ha, hv⟩ := parseSignature_shape h
    exact ⟨ha, .inl ⟨by rw [h7]; simp [recognizedNames], by rw [hv, h7]⟩⟩
  by_cases h8 : name.value = "SourceFile"
  · rw [dispatchAttr_eq_SourceFile rec name info pool h8] at h
    simp only [Option.some.injEq] at h
    obtain ⟨ha, hv⟩ := parseSourceFile_shape h
    exact ⟨ha, .inl ⟨by rw [h8]; simp [recognizedNames], by rw [hv, h8]⟩⟩
  by_cases h9 : name.value = "SourceDebugExtension"
  · rw [dispatchAttr_eq_SourceDebugExtension rec name info pool h9] at h
    simp only [Option.some.injEq] at h
    obtain ⟨ha, hv⟩ := parseSourceDebugExtension_shape h
    exact ⟨ha, .inl ⟨by rw [h9]; simp [recognizedNames], by rw [hv, h9]⟩⟩
  by_cases h10 : name.value = "LineNumberTable"
  · rw [dispatchAttr_eq_LineNumberTable rec name info pool h10] at h
    simp only [Option.some.injEq] at h
    obtain ⟨ha, hv⟩ := parseLineNumberTable_shape h
    exact ⟨ha, .inl ⟨by rw [h10]; simp [recognizedNames], by rw [hv, h10]⟩⟩
  by_cases h11 : name.value = "LocalVariableTable"
  · rw [dispatchAttr_eq_LocalVariableTable rec name info pool h11] at h
    simp only [Option.some.injEq] at h
    obtain ⟨ha, hv⟩ := parseLocalVariableTable_shape h
    exact ⟨ha, .inl ⟨by rw [h11]; simp [recognizedNames], by rw [hv, h11]⟩⟩
  by_cases h12 : name.value = "LocalVariableTypeTable"
  · rw [dispatchAttr_eq_LocalVariableTypeTable rec name info pool h12] at h
    simp only [Option.some.injEq] at h
    obtain ⟨ha, hv⟩ := parseLocalVariableTypeTable_shape h
    exact ⟨ha, .inl ⟨by rw [h12]; simp [recognizedNames], by rw [hv, h12]⟩⟩
  by_cases h13 : name.value = "Deprecated"
  · rw [dispatchAttr_eq_Deprecated rec name info pool h13] at h
    simp only [Option.some.injEq] at h
    obtain ⟨ha, hv⟩ := parseDeprecated_shape h
    exact ⟨ha, .inl ⟨by rw [h13]; simp [recognizedNames], by rw [hv, h13]⟩⟩
  by_cases h14 : name.value = "BootstrapMethods"
  · rw [dispatchAttr_eq_BootstrapMethods rec name info pool h14] at h
    simp only [Option.some.injEq] at h
    obtain ⟨ha, hv⟩ := parseBootstrapMethods_shape h
    exact ⟨ha, .inl ⟨by rw [h14]; simp [recognizedNames], by rw [hv, h14]⟩⟩
  by_cases h15 : name.value = "ModulePackages"
  · rw [dispatchAttr_eq_ModulePackages rec name info pool h15] at h
    simp only [Option.some.injEq] at h
    obtain ⟨ha, hv⟩ := parseModulePackages_shape h
    exact ⟨ha, .inl ⟨by rw [h15]; simp [recognizedNames], by rw [hv, h15]⟩⟩
  by_cases h16 : name.value = "ModuleMainClass"
  · rw [dispatchAttr_eq_ModuleMainClass rec name info pool h16] at h
    simp only [Option.some.injEq] at h
    obtain ⟨ha, hv⟩ := parseModuleMainClass_shape h
    exact ⟨ha, .inl ⟨by rw [h16]; simp [recognizedNames], by rw [hv, h16]⟩⟩
  by_cases h17 : name.value = "NestHost"
  · rw [dispatchAttr_eq_NestHost rec name info pool h17] at h
    simp only [Option.some.injEq] at h
    obtain ⟨ha, hv⟩ := parseNestHost_shape h
    exact ⟨ha, .inl ⟨by rw [h17]; simp [recognizedNames], by rw [hv, h17]⟩⟩
  have hnot : name.value ∉ recognizedNames := by
    simp [recognizedNames, h1, h2, h3, h4, h5, h6, h7, h8, h9, h10, h11, h12,
      h13, h14, h15, h16, h17]
  rw [dispatchAttr_unknown rec name info pool hnot] at h
  simp only [Option.some.injEq, Except.ok.injEq] at h
  subst h
  exact ⟨rfl, .inr ⟨hnot, rfl⟩⟩

/-- Whenever the fuelled decoder succeeds, the resolved name, the dispatch
fact about the declared body slice, and the final cursor are recovered. -/
theorem parseF_ok_dispatch {f : Nat} {c : Bytes} {pool : List CPEntry}
    {a : Attribute} {c' : Bytes}
    (h : Attribute.parseF (f + 1) c pool = some (.ok (a, c'))) :
    ∃ b0 b1 b2 b3 b4 b5 rest name,
      c = b0 :: b1 :: b2 :: b3 :: b4 :: b5 :: rest ∧
      poolGet pool (u16 b0 b1) = .ok name ∧
      dispatchAttr (parseRec f pool) name (rest.take (u32 b2 b3 b4 b5)) pool
        = some (.ok a) ∧
      c' = rest.drop (u32 b2 b3 b4 b5) := by
  rcases c with _ | ⟨b0, c⟩
  · simp [Attribute.parseF] at h
  rcases c with _ | ⟨b1, c⟩
  · simp [Attribute.parseF] at h
  rcases c with _ | ⟨b2, c⟩
  · simp [Attribute.parseF] at h
  rcases c with _ | ⟨b3, c⟩
  · simp [Attribute.parseF] at h
  rcases c with _ | ⟨b4, c⟩
  · simp [Attribute.parseF] at h
  rcases c with _ | ⟨b5, rest⟩
  · simp [Attribute.parseF] at h
  rw [parseF_cons] at h
  split at h
  · simp at h
  · rename_i name hp
    split at h
    · simp at h
    · simp at h
    · rename_i a0 hd
      simp only [Option.some.injEq, Except.ok.injEq, Prod.mk.injEq] at h
      obtain ⟨ha, hcd⟩ := h
      subst ha
      exact ⟨b0, b1, b2, b3, b4, b5, rest, name, rfl, hp, hd, hcd.symm⟩

/-- C8: for every input on which `decode_attribute` returns a value, the
variant of the returned Attribute matches the name string resolved from the
symbol table at the name index: the value's `name` field is that resolved
entry, a recognized name yields exactly its corresponding variant
(`variantName` equals the dispatch string), and any other name yields the
fallback variant. -/
theorem pyclass_c8_variant_matches_name (c : Bytes) (pool : List CPEntry)
    (a : Attribute) (c' : Bytes)
    (h : Attribute.parse c pool = .ok (a, c')) :
    ∃ b0 b1 b2 b3 b4 b5 rest name,
      c = b0 :: b1 :: b2 :: b3 :: b4 :: b5 :: rest ∧
      poolGet pool (u16 b0 b1) = .ok name ∧
      a.attrName = name ∧
      ((name.value ∈ recognizedNames ∧ a.variantName = some name.value) ∨
       (name.value ∉ recognizedNames ∧ a.variantName = none)) := by
  obtain ⟨r, hr⟩ := Option.isSome_iff_exists.mp
    (parseF_isSome (c.length + 1) c pool (Nat.lt_succ_self _))
  have hp : Attribute.parse c pool = r := by
    unfold Attribute.parse
    rw [hr]
    rfl
  rw [hp] at h
  subst h
  obtain ⟨b0, b1, b2, b3, b4, b5, rest, name, hc, hpg, hd, -⟩ :=
    parseF_ok_dispatch hr
  obtain ⟨ha, hv⟩ := dispatchAttr_ok_shape hd
  exact ⟨b0, b1, b2, b3, b4, b5, rest, name, hc, hpg, ha, hv⟩

theorem pyclass_c8_variant_matches_name_witness :
    ∃ b0 b1 b2 b3 b4 b5 rest name,
      ([0, 1, 0, 0, 0, 2, 0, 1] : Bytes)
        = b0 :: b1 :: b2 :: b3 :: b4 :: b5 :: rest ∧
      poolGet [⟨"SourceFile"⟩] (u16 b0 b1) = .ok name ∧
      Attribute.attrName (.SourceFile ⟨"SourceFile"⟩ ⟨"SourceFile"⟩) = name ∧
      ((name.value ∈ recognizedNames ∧
        Attribute.variantName (.SourceFile ⟨"SourceFile"⟩ ⟨"SourceFile"⟩)
          = some name.value) ∨
       (name.value ∉ recognizedNames ∧
        Attribute.variantName (.SourceFile ⟨"SourceFile"⟩ ⟨"SourceFile"⟩)
          = none)) :=
  pyclass_c8_variant_matches_name [0, 1, 0, 0, 0, 2, 0, 1] [⟨"SourceFile"⟩]
    (.SourceFile ⟨"SourceFile"⟩ ⟨"SourceFile"⟩) [] rfl

/-! ### Append stability: no reader fails or changes its value when bytes
are appended after input it already accepted -/

theorem readU16_append {c : Bytes} {v : Nat} {r : Bytes} (e : Bytes)
    (h : readU16 c = .ok (v, r)) : readU16 (c ++ e) = .ok (v, r ++ e) := by
  rcases c with _ | ⟨x, c⟩
  · simp [readU16] at h
  rcases c with _ | ⟨y, c⟩
  · simp [readU16] at h
  simp only [readU16, Except.ok.injEq, Prod.mk.injEq] at h
  obtain ⟨hv, hr⟩ := h
  subst hv hr
  rfl

theorem readExcEntry_append {c : Bytes} {x : Nat × Nat × Nat × Nat}
    {r : Bytes} (e : Bytes) (h : readExcEntry c = .ok (x, r)) :
    readExcEntry (c ++ e) = .ok (x, r ++ e) := by
  rcases c with _ | ⟨a0, c⟩
  · simp [readExcEntry] at h
  rcases c with _ | ⟨a1, c⟩
  · simp [readExcEntry] at h
  rcases c with _ | ⟨b0, c⟩
  · simp [readExcEntry] at h
  rcases c with _ | ⟨b1, c⟩
  · simp [readExcEntry] at h
  rcases c with _ | ⟨c0, c⟩
  · simp [readExcEntry] at h
  rcases c with _ | ⟨c1, c⟩
  · simp [readExcEntry] at h
  rcases c with _ | ⟨d0, c⟩
  · simp [readExcEntry] at h
  rcases c with _ | ⟨d1, c⟩
  · simp [readExcEntry] at h
  simp only [readExcEntry, Except.ok.injEq, Prod.mk.injEq] at h
  obtain ⟨hv, hr⟩ := h
  subst hv hr
  rfl

theorem readLineNumberEntry_append {c : Bytes} {x : LineNumber} {r : Bytes}
    (e : Bytes) (h : readLineNumberEntry c = .ok (x, r)) :
    readLineNumberEntry (c ++ e) = .ok (x, r ++ e) := by
  rcases c with _ | ⟨a0, c⟩
  · simp [readLineNumberEntry] at h
  rcases c with _ | ⟨a1, c⟩
  · simp [readLineNumberEntry] at h
  rcases c with _ | ⟨b0, c⟩
  · simp [readLineNumberEntry] at h
  rcases c with _ | ⟨b1, c⟩
  · simp [readLineNumberEntry] at h
  simp only [readLineNumberEntry, Except.ok.injEq, Prod.mk.injEq] at h
  obtain ⟨hv, hr⟩ := h
  subst hv hr
  rfl

theorem readLocalVariableEntry_append {c : Bytes} {x : LocalVariable}
    {r : Bytes} (e : Bytes) (h : readLocalVariableEntry c = .ok (x, r)) :
    readLocalVariableEntry (c ++ e) = .ok (x, r ++ e) := by
  rcases c with _ | ⟨a0, c⟩
  · simp [readLocalVariableEntry] at h
  rcases c with _ | ⟨a1, c⟩
  · simp [readLocalVariableEntry] at h
  rcases c with _ | ⟨b0, c⟩
  · simp [readLocalVariableEntry] at h
  rcases c with _ | ⟨b1, c⟩
  · simp [readLocalVariableEntry] at h
  rcases c with _ | ⟨c0, c⟩
  · simp [readLocalVariableEntry] at h
  rcases c with _ | ⟨c1, c⟩
  · simp [readLocalVariableEntry] at h
  rcases c with _ | ⟨d0, c⟩
  · simp [readLocalVariableEntry] at h
  rcases c with _ | ⟨d1, c⟩
  · simp [readLocalVariableEntry] at h
  rcases c with _ | ⟨e0, c⟩
  · simp [readLocalVariableEntry] at h
  rcases c with _ | ⟨e1, c⟩
  · simp [readLocalVariableEntry] at h
  simp only [readLocalVariableEntry, Except.ok.injEq, Prod.mk.injEq] at h
  obtain ⟨hv, hr⟩ := h
  subst hv hr
  rfl

theorem readLocalVariableTypeEntry_append {c : Bytes} {x : LocalVariableType}
    {r : Bytes} (e : Bytes) (h : readLocalVariableTypeEntry c = .ok (x, r)) :
    readLocalVariableTypeEntry (c ++ e) = .ok (x, r ++ e) := by
  rcases c with _ | ⟨a0, c⟩
  · simp [readLocalVariableTypeEntry] at h
  rcases c with _ | ⟨a1, c⟩
  · simp [readLocalVariableTypeEntry] at h
  rcases c with _ | ⟨b0, c⟩
  · simp [readLocalVariableTypeEntry] at h
  rcases c with _ | ⟨b1, c⟩
  · simp [readLocalVariableTypeEntry] at h
  rcases c with _ | ⟨c0, c⟩
  · simp [readLocalVariableTypeEntry] at h
  rcases c with _ | ⟨c1, c⟩
  · simp [readLocalVariableTypeEntry] at h
  rcases c with _ | ⟨d0, c⟩
  · simp [readLocalVariableTypeEntry] at h
  rcases c with _ | ⟨d1, c⟩
  · simp [readLocalVariableTypeEntry] at h
  rcases c with _ | ⟨e0, c⟩
  · simp [readLocalVariableTypeEntry] at h
  rcases c with _ | ⟨e1, c⟩
  · simp [readLocalVariableTypeEntry] at h
  simp only [readLocalVariableTypeEntry, Except.ok.injEq, Prod.mk.injEq] at h
  obtain ⟨hv, hr⟩ := h
  subst hv hr
  rfl

theorem readPoolIndexEntry_append {pool : List CPEntry} {c : Bytes}
    {x : CPEntry} {r : Bytes} (e : Bytes)
    (h : readPoolIndexEntry pool c = .ok (x, r)) :
    readPoolIndexEntry pool (c ++ e) = .ok (x, r ++ e) := by
  rcases c with _ | ⟨x0, c⟩
  · simp [readPoolIndexEntry] at h
  rcases c with _ | ⟨x1, c⟩
  · simp [readPoolIndexEntry] at h
  simp only [List.cons_append, readPoolIndexEntry] at h ⊢
  split at h
  · simp at h
  · simp only [Except.ok.injEq, Prod.mk.injEq] at h
    obtain ⟨hv, hr⟩ := h
    subst hv hr
    rfl

theorem readInnerClassEntry_append {pool : List CPEntry} {c : Bytes}
    {x : InnerClass} {r : Bytes} (e : Bytes)
    (h : readInnerClassEntry pool c = .ok (x, r)) :
    readInnerClassEntry pool (c ++ e) = .ok (x, r ++ e) := by
  rcases c with _ | ⟨a0, c⟩
  · simp [readInnerClassEntry] at h
  rcases c with _ | ⟨a1, c⟩
  · simp [readInnerClassEntry] at h
  rcases c with _ | ⟨b0, c⟩
  · simp [readInnerClassEntry] at h
  rcases c with _ | ⟨b1, c⟩
  · simp [readInnerClassEntry] at h
  rcases c with _ | ⟨c0, c⟩
  · simp [readInnerClassEntry] at h
  rcases c with _ | ⟨c1, c⟩
  · simp [readInnerClassEntry] at h
  rcases c with _ | ⟨d0, c⟩
  · simp [readInnerClassEntry] at h
  rcases c with _ | ⟨d1, c⟩
  · simp [readInnerClassEntry] at h
  simp only [List.cons_append, readInnerClassEntry] at h ⊢
  split at h
  · simp at h
  · split at h
    · simp at h
    · split at h
      · simp at h
      · simp only [Except.ok.injEq, Prod.mk.injEq] at h
        obtain ⟨hv, hr⟩ := h
        subst hv hr
        rfl

/-- A table read is append-stable when its entry reader is. -/
theorem readTable_append {α : Type} {f : Bytes → Except PErr (α × Bytes)}
    (hf : ∀ (c : Bytes) (x : α) (r : Bytes) (e : Bytes),
      f c = .ok (x, r) → f (c ++ e) = .ok (x, r ++ e)) :
    ∀ {n : Nat} {c : Bytes} {l : List α} {c' : Bytes} (e : Bytes),
      readTable f n c = .ok (l, c') →
      readTable f n (c ++ e) = .ok (l, c' ++ e) := by
  intro n
  induction n with
  | zero =>
    intro c l c' e h
    simp only [readTable, Except.ok.injEq, Prod.mk.injEq] at h ⊢
    obtain ⟨hl, hc⟩ := h
    subst hl hc
    exact ⟨rfl, rfl⟩
  | succ n ih =>
    intro c l c' e h
    simp only [readTable] at h ⊢
    split at h
    · simp at h
    · rename_i x fp1 heq
      rw [hf c x fp1 e heq]
      dsimp only
      split at h
      · simp at h
      · rename_i xs fp2 heq2
        rw [ih e heq2]
        dsimp only
        simp only [Except.ok.injEq, Prod.mk.injEq] at h
        obtain ⟨hl, hc⟩ := h
        subst hl hc
        rfl

theorem readBootstrapMethodEntry_append {pool : List CPEntry} {c : Bytes}
    {x : CPEntry × List CPEntry} {r : Bytes} (e : Bytes)
    (h : readBootstrapMethodEntry pool c = .ok (x, r)) :
    readBootstrapMethodEntry pool (c ++ e) = .ok (x, r ++ e) := by
  rcases c with _ | ⟨a0, c⟩
  · simp [readBootstrapMethodEntry] at h
  rcases c with _ | ⟨a1, c⟩
  · simp [readBootstrapMethodEntry] at h
  rcases c with _ | ⟨b0, c⟩
  · simp [readBootstrapMethodEntry] at h
  rcases c with _ | ⟨b1, c⟩
  · simp [readBootstrapMethodEntry] at h
  simp only [List.cons_append, readBootstrapMethodEntry] at h ⊢
  split at h
  · simp at h
  · rename_i args r2 heq
    rw [readTable_append (fun c2 x2 r3 e2 hx => readPoolIndexEntry_append e2 hx)
      e heq]
    dsimp only
    split at h
    · simp at h
    · simp only [Except.ok.injEq, Prod.mk.injEq] at h
      obtain ⟨hv, hr⟩ := h
      subst hv hr
      rfl

theorem parseConstantValue_append {name : CPEntry} {fp : Bytes}
    {pool : List CPEntry} {a : Attribute} (e : Bytes)
    (h : parseConstantValue name fp pool = .ok a) :
    parseConstantValue name (fp ++ e) pool = .ok a := by
  unfold parseConstantValue at h ⊢
  split at h
  · simp at h
  · rename_i idx r2 heq
    rw [readU16_append e heq]
    dsimp only
    exact h

theorem parseSignature_append {name : CPEntry} {fp : Bytes}
    {pool : List CPEntry} {a : Attribute} (e : Bytes)
    (h : parseSignature name fp pool = .ok a) :
    parseSignature name (fp ++ e) pool = .ok a := by
  unfold parseSignature at h ⊢
  split at h
  · simp at h
  · rename_i idx r2 heq
    rw [readU16_append e heq]
    dsimp only
    exact h

theorem parseSourceFile_append {name : CPEntry} {fp : Bytes}
    {pool : List CPEntry} {a : Attribute} (e : Bytes)
    (h : parseSourceFile name fp pool = .ok a) :
    parseSourceFile name (fp ++ e) pool = .ok a := by
  unfold parseSourceFile at h ⊢
  split at h
  · simp at h
  · rename_i idx r2 heq
    rw [readU16_append e heq]
    dsimp only
    exact h

theorem parseModuleMainClass_append {name : CPEntry} {fp : Bytes}
    {pool : List CPEntry} {a : Attribute} (e : Bytes)
    (h : parseModuleMainClass name fp pool = .ok a) :
    parseModuleMainClass name (fp ++ e) pool = .ok a := by
  unfold parseModuleMainClass at h ⊢
  split at h
  · simp at h
  · rename_i idx r2 heq
    rw [readU16_append e heq]
    dsimp only
    exact h

theorem parseNestHost_append {name : CPEntry} {fp : Bytes}
    {pool : List CPEntry} {a : Attribute} (e : Bytes)
    (h : parseNestHost name fp pool = .ok a) :
    parseNestHost name (fp ++ e) pool = .ok a := by
  unfold parseNestHost at h ⊢
  split at h
  · simp at h
  · rename_i idx r2 heq
    rw [readU16_append e heq]
    dsimp only
    exact h

theorem parseEnclosingMethod_append {name : CPEntry} {fp : Bytes}
    {pool : List CPEntry} {a : Attribute} (e : Bytes)
    (h : parseEnclosingMethod name fp pool = .ok a) :
    parseEnclosingMethod name (fp ++ e) pool = .ok a := by
  rcases fp with _ | ⟨a0, fp⟩
  · simp [parseEnclosingMethod] at h
  rcases fp with _ | ⟨a1, fp⟩
  · simp [parseEnclosingMethod] at h
  rcases fp with _ | ⟨b0, fp⟩
  · simp [parseEnclosingMethod] at h
  rcases fp with _ | ⟨b1, fp⟩
  · simp [parseEnclosingMethod] at h
  simp only [List.cons_append, parseEnclosingMethod] at h ⊢
  exact h

theorem parseExceptions_append {name : CPEntry} {fp : Bytes}
    {pool : List CPEntry} {a : Attribute} (e : Bytes)
    (h : parseExceptions name fp pool = .ok a) :
    parseExceptions name (fp ++ e) pool = .ok a := by
  unfold parseExceptions at h ⊢
  split at h
  · simp at h
  · rename_i n fp1 heq
    rw [readU16_append e heq]
    dsimp only
    split at h
    · simp at h
    · rename_i l fp2 heq2
      rw [readTable_append (fun c2 x r2 e2 hx => readU16_append e2 hx) e heq2]
      dsimp only
      exact h

theorem parseInnerClasses_append {name : CPEntry} {fp : Bytes}
    {pool : List CPEntry} {a : Attribute} (e : Bytes)
    (h : parseInnerClasses name fp pool = .ok a) :
    parseInnerClasses name (fp ++ e) pool = .ok a := by
  unfold parseInnerClasses at h ⊢
  split at h
  · simp at h
  · rename_i n fp1 heq
    rw [readU16_append e heq]
    dsimp only
    split at h
    · simp at h
    · rename_i l fp2 heq2
      rw [readTable_append
        (fun c2 x r2 e2 hx => readInnerClassEntry_append e2 hx) e heq2]
      dsimp only
      exact h

theorem parseLineNumberTable_append {name : CPEntry} {fp : Bytes}
    {pool : List CPEntry} {a : Attribute} (e : Bytes)
    (h : parseLineNumberTable name fp pool = .ok a) :
    parseLineNumberTable name (fp ++ e) pool = .ok a := by
  unfold parseLineNumberTable at h ⊢
  split at h
  · simp at h
  · rename_i n fp1 heq
    rw [readU16_append e heq]
    dsimp only
    split at h
    · simp at h
    · rename_i l fp2 heq2
      rw [readTable_append
        (fun c2 x r2 e2 hx => readLineNumberEntry_append e2 hx) e heq2]
      dsimp only
      exact h

theorem parseLocalVariableTable_append {name : CPEntry} {fp : Bytes}
    {pool : List CPEntry} {a : Attribute} (e : Bytes)
    (h : parseLocalVariableTable name fp pool = .ok a) :
    parseLocalVariableTable name (fp ++ e) pool = .ok a := by
  unfold parseLocalVariableTable at h ⊢
  split at h
  · simp at h
  · rename_i n fp1 heq
    rw [readU16_append e heq]
    dsimp only
    split at h
    · simp at h
    · rename_i l fp2 heq2
      rw [readTable_append
        (fun c2 x r2 e2 hx => readLocalVariableEntry_append e2 hx) e heq2]
      dsimp only
      exact h

theorem parseLocalVariableTypeTable_append {name : CPEntry} {fp : Bytes}
    {pool : List CPEntry} {a : Attribute} (e : Bytes)
    (h : parseLocalVariableTypeTable name fp pool = .ok a) :
    parseLocalVariableTypeTable name (fp ++ e) pool = .ok a := by
  unfold parseLocalVariableTypeTable at h ⊢
  split at h
  · simp at h
  · rename_i n fp1 heq
    rw [readU16_append e heq]
    dsimp only
    split at h
    · simp at h
    · rename_i l fp2 heq2
      rw [readTable_append
        (fun c2 x r2 e2 hx => readLocalVariableTypeEntry_append e2 hx) e heq2]
      dsimp only
      exact h

theorem parseBootstrapMethods_append {name : CPEntry} {fp : Bytes}
    {pool : List CPEntry} {a : Attribute} (e : Bytes)
    (h : parseBootstrapMethods name fp pool = .ok a) :
    parseBootstrapMethods name (fp ++ e) pool = .ok a := by
  unfold parseBootstrapMethods at h ⊢
  split at h
  · simp at h
  · rename_i n fp1 heq
    rw [readU16_append e heq]
    dsimp only
    split at h
    · simp at h
    · rename_i l fp2 heq2
      rw [readTable_append
        (fun c2 x r2 e2 hx => readBootstrapMethodEntry_append e2 hx) e heq2]
      dsimp only
      exact h

theorem parseModulePackages_append {name : CPEntry} {fp : Bytes}
    {pool : List CPEntry} {a : Attribute} (e : Bytes)
    (h : parseModulePackages name fp pool = .ok a) :
    parseModulePackages name (fp ++ e) pool = .ok a := by
  unfold parseModulePackages at h ⊢
  split at h
  · simp at h
  · rename_i n fp1 heq
    rw [readU16_append e heq]
    dsimp only
    split at h
    · simp at h
    · rename_i l fp2 heq2
      rw [readTable_append
        (fun c2 x r2 e2 hx => readPoolIndexEntry_append e2 hx) e heq2]
      dsimp only
      exact h

/-- The nested-attribute loop is success-stable under appending bytes when
its step is (the nested attributes may absorb some of the new bytes, so
only success, not the values, is preserved). -/
theorem attrLoop_append
    (step : Bytes → Option (Except PErr (Attribute × Bytes)))
    (hstep : ∀ (c : Bytes) (a : Attribute) (c' : Bytes) (e : Bytes),
      step c = some (.ok (a, c')) →
      ∃ a' e', step (c ++ e) = some (.ok (a', c' ++ e'))) :
    ∀ (k : Nat) (c : Bytes) (l : List Attribute) (c' : Bytes) (e : Bytes),
      attrLoop step k c = some (.ok (l, c')) →
      ∃ l' e', attrLoop step k (c ++ e) = some (.ok (l', c' ++ e')) := by
  intro k
  induction k with
  | zero =>
    intro c l c' e h
    simp only [attrLoop, Option.some.injEq, Except.ok.injEq,
      Prod.mk.injEq] at h
    obtain ⟨hl, hc⟩ := h
    subst hl hc
    exact ⟨[], e, rfl⟩
  | succ k ih =>
    intro c l c' e h
    simp only [attrLoop] at h
    split at h
    · simp at h
    · simp at h
    · rename_i a1 c1 heq
      split at h
      · simp at h
      · simp at h
      · rename_i l2 c2 heq2
        simp only [Option.some.injEq, Except.ok.injEq, Prod.mk.injEq] at h
        obtain ⟨hl, hc⟩ := h
        subst hl hc
        obtain ⟨a', e1, hs'⟩ := hstep c a1 c1 e heq
        obtain ⟨l', e2, hl'⟩ := ih c1 l2 c2 e1 heq2
        refine ⟨a' :: l', e2, ?_⟩
        simp only [attrLoop]
        rw [hs']
        dsimp only
        rw [hl']

/-- `Attribute_Code._parse` is success-stable under appending body bytes
when the recursive call is. -/
theorem codeParse_append
    (rec : Bytes → Option (Except PErr (Attribute × Bytes)))
    (hstep : ∀ (c : Bytes) (a : Attribute) (c' : Bytes) (e : Bytes),
      rec c = some (.ok (a, c')) →
      ∃ a' e', rec (c ++ e) = some (.ok (a', c' ++ e')))
    {name : CPEntry} {fp : Bytes} {pool : List CPEntry} {a : Attribute}
    (e : Bytes) (h : Attribute_Code_parse rec name fp pool = some (.ok a)) :
    ∃ a', Attribute_Code_parse rec name (fp ++ e) pool = some (.ok a') := by
  rcases fp with _ | ⟨a0, fp⟩
  · simp [Attribute_Code_parse] at h
  rcases fp with _ | ⟨a1, fp⟩
  · simp [Attribute_Code_parse] at h
  rcases fp with _ | ⟨b0, fp⟩
  · simp [Attribute_Code_parse] at h
  rcases fp with _ | ⟨b1, fp⟩
  · simp [Attribute_Code_parse] at h
  rcases fp with _ | ⟨c0, fp⟩
  · simp [Attribute_Code_parse] at h
  rcases fp with _ | ⟨c1, fp⟩
  · simp [Attribute_Code_parse] at h
  rcases fp with _ | ⟨c2, fp⟩
  · simp [Attribute_Code_parse] at h
  rcases fp with _ | ⟨c3, r8⟩
  · simp [Attribute_Code_parse] at h
  simp only [List.cons_append, Attribute_Code_parse] at h ⊢
  split at h
  · simp at h
  · rename_i n r2 heq1
    have hcl : u32 c0 c1 c2 c3 ≤ r8.length := by
      have h2 := readU16_length heq1
      simp only [List.length_drop] at h2
      omega
    rw [List.drop_append_of_le_length hcl, readU16_append e heq1]
    dsimp only
    split at h
    · simp at h
    · rename_i et r3 heq2
      rw [readTable_append (fun c2 x r2 e2 hx => readExcEntry_append e2 hx)
        e heq2]
      dsimp only
      split at h
      · simp at h
      · rename_i k r4 heq3
        rw [readU16_append e heq3]
        dsimp only
        split at h
        · simp at h
        · simp at h
        · rename_i l r5 heq4
          obtain ⟨l', e', hl⟩ := attrLoop_append rec hstep k r4 l r5 e heq4
          rw [hl]
          exact ⟨_, rfl⟩

/-- The dispatch is success-stable under appending body bytes when the
recursive call is: no variant decoder rejects trailing unread bytes. -/
theorem dispatchAttr_append
    (rec : Bytes → Option (Except PErr (Attribute × Bytes)))
    (hstep : ∀ (c : Bytes) (a : Attribute) (c' : Bytes) (e : Bytes),
      rec c = some (.ok (a, c')) →
      ∃ a' e', rec (c ++ e) = some (.ok (a', c' ++ e')))
    {name : CPEntry} {info : Bytes} {pool : List CPEntry} {a : Attribute}
    (e : Bytes) (h : dispatchAttr rec name info pool = some (.ok a)) :
    ∃ a', dispatchAttr rec name (info ++ e) pool = some (.ok a') := by
  by_cases h1 : name.value = "ConstantValue"
  · rw [dispatchAttr_eq_ConstantValue rec name info pool h1] at h
    rw [dispatchAttr_eq_ConstantValue rec name (info ++ e) pool h1]
    simp only [Option.some.injEq] at h
    exact ⟨a, by rw [parseConstantValue_append e h]⟩
  by_cases h2 : name.value = "Code"
  · rw [dispatchAttr_eq_Code rec name info pool h2] at h
    rw [dispatchAttr_eq_Code rec name (info ++ e) pool h2]
    exact codeParse_append rec hstep e h
  by_cases h3 : name.value = "Exceptions"
  · rw [dispatchAttr_eq_Exceptions rec name info pool h3] at h
    rw [dispatchAttr_eq_Exceptions rec name (info ++ e) pool h3]
    simp only [Option.some.injEq] at h
    exact ⟨a, by rw [parseExceptions_append e h]⟩
  by_cases h4 : name.value = "InnerClasses"
  · rw [dispatchAttr_eq_InnerClasses rec name info pool h4] at h
    rw [dispatchAttr_eq_InnerClasses rec name (info ++ e) pool h4]
    simp only [Option.some.injEq] at h
    exact ⟨a, by rw [parseInnerClasses_append e h]⟩
  by_cases h5 : name.value = "EnclosingMethod"
  · rw [dispatchAttr_eq_EnclosingMethod rec name info pool h5] at h
    rw [dispatchAttr_eq_EnclosingMethod rec name (info ++ e) pool h5]
    simp only [Option.some.injEq] at h
    exact ⟨a, by rw [parseEnclosingMethod_append e h]⟩
  by_cases h6 : name.value = "Synthetic"
  · rw [dispatchAttr_eq_Synthetic rec name (info ++ e) pool h6]
    exact ⟨.Synthetic name, rfl⟩
  by_cases h7 : name.value = "Signature"
  · rw [dispatchAttr_eq_Signature rec name info pool h7] at h
    rw [dispatchAttr_eq_Signature rec name (info ++ e) pool h7]
    simp only [Option.some.injEq] at h
    exact ⟨a, by rw [parseSignature_append e h]⟩
  by_cases h8 : name.value = "SourceFile"
  · rw [dispatchAttr_eq_SourceFile rec name info pool h8] at h
    rw [dispatchAttr_eq_SourceFile rec name (info ++ e) pool h8]
    simp only [Option.some.injEq] at h
    exact ⟨a, by rw [parseSourceFile_append e h]⟩
  by_cases h9 : name.value = "SourceDebugExtension"
  · rw [dispatchAttr_eq_SourceDebugExtension rec name (info ++ e) pool h9]
    exact ⟨.SourceDebugExtension name (info ++ e), rfl⟩
  by_cases h10 : name.value = "LineNumberTable"
  · rw [dispatchAttr_eq_LineNumberTable rec name info pool h10] at h
    rw [dispatchAttr_eq_LineNumberTable rec name (info ++ e) pool h10]
    simp only [Option.some.injEq] at h
    exact ⟨a, by rw [parseLineNumberTable_append e h]⟩
  by_cases h11 : name.value = "LocalVariableTable"
  · rw [dispatchAttr_eq_LocalVariableTable rec name info pool h11] at h
    rw [dispatchAttr_eq_LocalVariableTable rec name (info ++ e) pool h11]
    simp only [Option.some.injEq] at h
    exact ⟨a, by rw [parseLocalVariableTable_append e h]⟩
  by_cases h12 : name.value = "LocalVariableTypeTable"
  · rw [dispatchAttr_eq_LocalVariableTypeTable rec name info pool h12] at h
    rw [dispatchAttr_eq_LocalVariableTypeTable rec name (info ++ e) pool h12]
    simp only [Option.some.injEq] at h
    exact ⟨a, by rw [parseLocalVariableTypeTable_append e h]⟩
  by_cases h13 : name.value = "Deprecated"
  · rw [dispatchAttr_eq_Deprecated rec name (info ++ e) pool h13]
    exact ⟨.Deprecated name, rfl⟩
  by_cases h14 : name.value = "BootstrapMethods"
  · rw [dispatchAttr_eq_BootstrapMethods rec name info pool h14] at h
    rw [dispatchAttr_eq_BootstrapMethods rec name (info ++ e) pool h14]
    simp only [Option.some.injEq] at h
    exact ⟨a, by rw [parseBootstrapMethods_append e h]⟩
  by_cases h15 : name.value = "ModulePackages"
  · rw [dispatchAttr_eq_ModulePackages rec name info pool h15] at h
    rw [dispatchAttr_eq_ModulePackages rec name (info ++ e) pool h15]
    simp only [Option.some.injEq] at h
    exact ⟨a, by rw [parseModulePackages_append e h]⟩
  by_cases h16 : name.value = "ModuleMainClass"
  · rw [dispatchAttr_eq_ModuleMainClass rec name info pool h16] at h
    rw [dispatchAttr_eq_ModuleMainClass rec name (info ++ e) pool h16]
    simp only [Option.some.injEq] at h
    exact ⟨a, by rw [parseModuleMainClass_append e h]⟩
  by_cases h17 : name.value = "NestHost"
  · rw [dispatchAttr_eq_NestHost rec name info pool h17] at h
    rw [dispatchAttr_eq_NestHost rec name (info ++ e) pool h17]
    simp only [Option.some.injEq] at h
    exact ⟨a, by rw [parseNestHost_append e h]⟩
  have hnot : name.value ∉ recognizedNames := by
    simp [recognizedNames, h1, h2, h3, h4, h5, h6, h7, h8, h9, h10, h11, h12,
      h13, h14, h15, h16, h17]
  rw [dispatchAttr_unknown rec name (info ++ e) pool hnot]
  exact ⟨.Unknown name (info ++ e), rfl⟩

/-- The fuelled decoder is success-stable under appending bytes after the
input it accepted: the new final cursor extends the old one. -/
theorem parseF_append :
    ∀ (f : Nat) (c : Bytes) (pool : List CPEntry) (a : Attribute)
      (c' e : Bytes),
      Attribute.parseF f c pool = some (.ok (a, c')) →
      ∃ a' e', Attribute.parseF f (c ++ e) pool = some (.ok (a', c' ++ e')) := by
  intro f
  induction f with
  | zero =>
    intro c pool a c' e h
    simp [Attribute.parseF] at h
  | succ f ih =>
    intro c pool a c' e h
    have hstep : ∀ (c2 : Bytes) (a2 : Attribute) (c2' : Bytes) (e2 : Bytes),
        parseRec f pool c2 = some (.ok (a2, c2')) →
        ∃ a' e', parseRec f pool (c2 ++ e2) = some (.ok (a', c2' ++ e')) :=
      fun c2 a2 c2' e2 hx => ih c2 pool a2 c2' e2 hx
    obtain ⟨b0, b1, b2, b3, b4, b5, rest, name, hc, hpg, hd, hc'⟩ :=
      parseF_ok_dispatch h
    subst hc hc'
    by_cases hle : u32 b2 b3 b4 b5 ≤ rest.length
    · refine ⟨a, e, ?_⟩
      simp only [List.cons_append]
      rw [parseF_cons, hpg]
      dsimp only
      rw [List.take_append_of_le_length hle, hd]
      dsimp only
      rw [List.drop_append_of_le_length hle]
    · push_neg at hle
      have hlee : rest.length ≤ u32 b2 b3 b4 b5 := le_of_lt hle
      rw [List.take_of_length_le hlee] at hd
      obtain ⟨a', hd'⟩ := dispatchAttr_append (parseRec f pool) hstep
        (e.take (u32 b2 b3 b4 b5 - rest.length)) hd
      refine ⟨a', e.drop (u32 b2 b3 b4 b5 - rest.length), ?_⟩
      simp only [List.cons_append]
      rw [parseF_cons, hpg]
      dsimp only
      rw [List.take_append_eq_append_take, List.take_of_length_le hlee, hd']
      dsimp only
      rw [List.drop_append_eq_append_drop, List.drop_eq_nil_of_le hlee]

/-- C10: no variant decoder checks that it consumed the declared body
length.  Synthetic and Deprecated succeed on a body of any length
(including a non-empty one), returning a variant carrying only the name;
and in every variant, trailing unread body bytes are silently discarded
rather than causing a failure: appending bytes to a body a variant decoder
accepted never turns its success into a failure. -/
theorem pyclass_c10_lenient_consumption :
    (∀ (rec : Bytes → Option (Except PErr (Attribute × Bytes)))
      (name : CPEntry) (fp : Bytes) (pool : List CPEntry),
      name.value = "Synthetic" →
      dispatchAttr rec name fp pool = some (.ok (.Synthetic name))) ∧
    (∀ (rec : Bytes → Option (Except PErr (Attribute × Bytes)))
      (name : CPEntry) (fp : Bytes) (pool : List CPEntry),
      name.value = "Deprecated" →
      dispatchAttr rec name fp pool = some (.ok (.Deprecated name))) ∧
    (∀ (f : Nat) (name : CPEntry) (info extra : Bytes)
      (pool : List CPEntry) (a : Attribute),
      dispatchAttr (parseRec f pool) name info pool = some (.ok a) →
      ∃ a', dispatchAttr (parseRec f pool) name (info ++ extra) pool
        = some (.ok a')) := by
  refine ⟨?_, ?_, ?_⟩
  · intro rec name fp pool h
    rw [dispatchAttr_eq_Synthetic rec name fp pool h]
    rfl
  · intro rec name fp pool h
    rw [dispatchAttr_eq_Deprecated rec name fp pool h]
    rfl
  · intro f name info extra pool a h
    exact dispatchAttr_append (parseRec f pool)
      (fun c2 a2 c2' e2 hx => parseF_append f c2 pool a2 c2' e2 hx) extra h

theorem pyclass_c10_lenient_consumption_witness :
    dispatchAttr (parseRec 1 [⟨"S"⟩]) ⟨"Synthetic"⟩ [1, 2, 3] [⟨"S"⟩]
      = some (.ok (.Synthetic ⟨"Synthetic"⟩)) ∧
    dispatchAttr (parseRec 1 [⟨"S"⟩]) ⟨"Deprecated"⟩ [4, 5] [⟨"S"⟩]
      = some (.ok (.Deprecated ⟨"Deprecated"⟩)) ∧
    (∃ a', dispatchAttr (parseRec 1 [⟨"ConstantValue"⟩]) ⟨"ConstantValue"⟩
      ([0, 1] ++ [5, 6]) [⟨"ConstantValue"⟩] = some (.ok a')) :=
  ⟨pyclass_c10_lenient_consumption.1 (parseRec 1 [⟨"S"⟩]) ⟨"Synthetic"⟩
      [1, 2, 3] [⟨"S"⟩] rfl,
   pyclass_c10_lenient_consumption.2.1 (parseRec 1 [⟨"S"⟩]) ⟨"Deprecated"⟩
      [4, 5] [⟨"S"⟩] rfl,
   pyclass_c10_lenient_consumption.2.2 1 ⟨"ConstantValue"⟩ [0, 1] [5, 6]
      [⟨"ConstantValue"⟩] (.ConstantValue ⟨"ConstantValue"⟩ ⟨"ConstantValue"⟩)
      rfl⟩

end PyClassJVM
